import Mathlib

/-!
Verification of the aggrperpvol backend: a shallow embedding, in Lean 4, of
the exchange-connector framework and the aggregation pipeline found in
`backend/app/services/`, together with proofs of the behavioural properties
stated in the design document.

Conventions of the embedding:
* Python numbers used for volumes and prices are embedded as `ℚ`
  (the code computes with `decimal.Decimal`, which is exact decimal
  arithmetic, and with floats whose role in the claims is purely structural).
* Millisecond timestamps and calendar dates are embedded as `Nat`.
* A Python call that can return a value, return `None`, or raise, is
  embedded as an explicit outcome type (`ConnOutcome`); fallible code
  returns `Option`/`Except`.
* Network page sources are embedded as total functions from the fetch
  index to the page returned, mirroring the mock page sources used by the
  design document's regression tests.
-/

/-- Modelled from the spec: the `ExchangeVolumeInfo` schema
(platform, symbol-or-scope-label, volume_24h_usd, optional error).  The
class is referenced throughout `src/` but its declaration file is not
among the sources; fields follow the spec's data model section and every
constructor call in `src/`.  The `timestamp` field ("fan-out completion
time") plays no role in any claim and is omitted. -/
structure ExchangeVolumeInfo where
  platform_name : String
  symbol : Option String
  volume_24h_usd : ℚ
  error : Option String
deriving DecidableEq, Repr

/-- Outcome of one awaited connector coroutine as observed through
`asyncio.gather(..., return_exceptions=True)`: a returned
`ExchangeVolumeInfo`, a returned `None`, or a raised exception carrying
its `str(e)` message. -/
inductive ConnOutcome where
  | ok (info : ExchangeVolumeInfo)
  | noData
  | exc (msg : String)
deriving DecidableEq, Repr

/-- Result schema of `AggregationService.get_current_aggregated_volume`
(`CurrentAggregatedVolume`): the summed total and the per-platform list.
The `last_updated` wall-clock field is irrelevant to the claims and
omitted. -/
structure CurrentAggregatedVolume where
  total_volume_24h_usd : ℚ
  individual_platforms : List ExchangeVolumeInfo
deriving DecidableEq, Repr

/-- Embedding of the result-merging loop of
`AggregationService.get_current_aggregated_volume`
(aggregation_service.py lines 378-399).  The input list pairs each
platform for which a task was issued with the outcome of its
`get_latest_24h_volume` task, in task order.  Mirroring the source:
an exception becomes an entry with zero volume and `error=str(e)`;
a `None` result becomes an entry with zero volume and
`error="No data returned"`; any other result is appended unchanged and
its `volume_24h_usd` is added to the running total. -/
def getCurrentAggregatedVolume (results : List (String × ConnOutcome)) :
    CurrentAggregatedVolume :=
  let fin := results.foldl
    (fun (acc : ℚ × List ExchangeVolumeInfo) (pr : String × ConnOutcome) =>
      match pr.2 with
      | ConnOutcome.exc m =>
          (acc.1, acc.2 ++ [⟨pr.1, none, 0, some m⟩])
      | ConnOutcome.ok info =>
          (acc.1 + info.volume_24h_usd, acc.2 ++ [info])
      | ConnOutcome.noData =>
          (acc.1, acc.2 ++ [⟨pr.1, none, 0, some "No data returned"⟩]))
    (0, [])
  ⟨fin.1, fin.2⟩

/-- Entry produced for one fan-out task, as a function of the task's
platform and outcome (the per-iteration effect of the loop at
aggregation_service.py lines 380-393 on `individual_platform_volumes`). -/
def fanoutEntry (pr : String × ConnOutcome) : ExchangeVolumeInfo :=
  match pr.2 with
  | ConnOutcome.exc m => ⟨pr.1, none, 0, some m⟩
  | ConnOutcome.ok info => info
  | ConnOutcome.noData => ⟨pr.1, none, 0, some "No data returned"⟩

/-- Contribution of one fan-out task to `total_volume_usd`: the reported
volume for a returned result, zero for an exception or a `None`. -/
def fanoutVolume (pr : String × ConnOutcome) : ℚ :=
  match pr.2 with
  | ConnOutcome.ok info => info.volume_24h_usd
  | _ => 0

lemma getCurrentAggregatedVolume_foldl (results : List (String × ConnOutcome))
    (t : ℚ) (es : List ExchangeVolumeInfo) :
    results.foldl
      (fun (acc : ℚ × List ExchangeVolumeInfo) (pr : String × ConnOutcome) =>
        match pr.2 with
        | ConnOutcome.exc m =>
            (acc.1, acc.2 ++ [⟨pr.1, none, 0, some m⟩])
        | ConnOutcome.ok info =>
            (acc.1 + info.volume_24h_usd, acc.2 ++ [info])
        | ConnOutcome.noData =>
            (acc.1, acc.2 ++ [⟨pr.1, none, 0, some "No data returned"⟩]))
      (t, es)
      = (t + (results.map fanoutVolume).sum, es ++ results.map fanoutEntry) := by
  induction results generalizing t es with
  | nil => simp
  | cons pr rest ih =>
      cases pr with
      | mk p r =>
        cases r with
        | ok info => simp [fanoutVolume, fanoutEntry, ih, add_assoc]
        | noData => simp [fanoutVolume, fanoutEntry, ih]
        | exc m => simp [fanoutVolume, fanoutEntry, ih]

lemma getCurrentAggregatedVolume_eq (results : List (String × ConnOutcome)) :
    getCurrentAggregatedVolume results =
      ⟨(results.map fanoutVolume).sum, results.map fanoutEntry⟩ := by
  unfold getCurrentAggregatedVolume
  rw [getCurrentAggregatedVolume_foldl]
  simp

/-- Predicate on one fan-out task: if the task returned an
`ExchangeVolumeInfo` carrying an error annotation, its reported volume is
zero.  This is the regime the connectors in `src/` actually keep to, and
under it the original wording of claim C2 is recovered. -/
def errorEntryHasZeroVolume (pr : String × ConnOutcome) : Bool :=
  match pr.2 with
  | ConnOutcome.ok info => !info.error.isSome || (info.volume_24h_usd == 0)
  | _ => true

lemma volume_sum_eq_errorFree_sum (results : List (String × ConnOutcome))
    (h : ∀ pr ∈ results, errorEntryHasZeroVolume pr = true) :
    (results.map fanoutVolume).sum =
      (((results.map fanoutEntry).filter (fun e => e.error.isNone)).map
        (fun e => e.volume_24h_usd)).sum := by
  induction results with
  | nil => simp
  | cons pr rest ih =>
      have hpr := h pr (List.mem_cons_self pr rest)
      have hrest : ∀ q ∈ rest, errorEntryHasZeroVolume q = true :=
        fun q hq => h q (List.mem_cons_of_mem pr hq)
      cases hr : pr.2 with
      | ok info =>
          cases herr : info.error with
          | none =>
              simp [fanoutVolume, fanoutEntry, hr, herr, List.filter_cons,
                Option.isNone, ih hrest]
          | some msg =>
              have hz : info.volume_24h_usd = 0 := by
                have := hpr
                simp [errorEntryHasZeroVolume, hr, herr] at this
                exact this
              simp [fanoutVolume, fanoutEntry, hr, herr, List.filter_cons,
                Option.isNone, hz, ih hrest]
      | noData =>
          simp [fanoutVolume, fanoutEntry, hr, List.filter_cons,
            Option.isNone, ih hrest]
      | exc m =>
          simp [fanoutVolume, fanoutEntry, hr, List.filter_cons,
            Option.isNone, ih hrest]

/-- Fan-out result list refuting claim C2 as stated: a single connector
result that carries both a non-zero volume and an error annotation. -/
def c2CounterexampleResults : List (String × ConnOutcome) :=
  [("woox", ConnOutcome.ok ⟨"woox", some "PERP_BTC_USDT", 100, some "partial failure"⟩)]

/-- C2, counterexample: for the mix of connector results in
`c2CounterexampleResults` (one returned `ExchangeVolumeInfo` whose error
field is populated and whose `volume_24h_usd` is 100), the total produced
by `get_current_aggregated_volume` is 100, not the sum (0) of
`volume_24h_usd` over the entries whose error field is absent — the loop
adds every returned result's volume without consulting its error field. -/
theorem getCurrentAggregatedVolume_counts_error_annotated_entry :
    ¬ ((getCurrentAggregatedVolume c2CounterexampleResults).total_volume_24h_usd =
      ((((getCurrentAggregatedVolume c2CounterexampleResults).individual_platforms).filter
          (fun e => e.error.isNone)).map (fun e => e.volume_24h_usd)).sum) := by
  rw [getCurrentAggregatedVolume_eq]
  simp [c2CounterexampleResults, fanoutVolume, fanoutEntry]

/-- C2, amended: the `total_volume_24h_usd` returned by
`get_current_aggregated_volume` equals the sum of the reported
`volume_24h_usd` over all returned (non-exception, non-`None`) connector
results — including any that carry an error annotation; exceptions and
`None` results contribute 0.  Moreover, whenever every returned result
that carries an error annotation reports zero volume (as the connectors
in `src/` do), the total also equals the sum of `volume_24h_usd` over
exactly the entries whose error field is absent, as claim C2 words it. -/
theorem getCurrentAggregatedVolume_total_sums_returned_results
    (results : List (String × ConnOutcome)) :
    (getCurrentAggregatedVolume results).total_volume_24h_usd =
      (results.map fanoutVolume).sum ∧
    ((∀ pr ∈ results, errorEntryHasZeroVolume pr = true) →
      (getCurrentAggregatedVolume results).total_volume_24h_usd =
        ((((getCurrentAggregatedVolume results).individual_platforms).filter
            (fun e => e.error.isNone)).map (fun e => e.volume_24h_usd)).sum) := by
  rw [getCurrentAggregatedVolume_eq]
  exact ⟨rfl, fun h => volume_sum_eq_errorFree_sum results h⟩

/-- Witness for the amended C2 theorem at the spec's own example: three
platforms returning 100, 200, and an exception give a total of 300 with
three entries present. -/
theorem getCurrentAggregatedVolume_total_sums_returned_results_witness :
    (∀ pr ∈ [("woox", ConnOutcome.ok ⟨"woox", none, 100, none⟩),
             ("paradex", ConnOutcome.ok ⟨"paradex", none, 200, none⟩),
             ("bybit", ConnOutcome.exc "boom")], errorEntryHasZeroVolume pr = true) ∧
    ((getCurrentAggregatedVolume
        [("woox", ConnOutcome.ok ⟨"woox", none, 100, none⟩),
         ("paradex", ConnOutcome.ok ⟨"paradex", none, 200, none⟩),
         ("bybit", ConnOutcome.exc "boom")]).total_volume_24h_usd =
      ((([("woox", ConnOutcome.ok ⟨"woox", none, 100, none⟩),
          ("paradex", ConnOutcome.ok ⟨"paradex", none, 200, none⟩),
          ("bybit", ConnOutcome.exc "boom")]).map fanoutVolume)).sum) := by
  constructor
  · intro pr hpr
    simp only [List.mem_cons, List.not_mem_nil, or_false] at hpr
    rcases hpr with h | h | h <;> subst h <;> rfl
  · exact (getCurrentAggregatedVolume_total_sums_returned_results _).1

/-- C4: during the fan-out of `get_current_aggregated_volume`, a task that
raised is converted into an `ExchangeVolumeInfo` carrying that error's
message with zero volume, a `None` result into one with the fixed
"No data returned" message, and a returned result is kept unchanged; no
outcome removes any other platform's entry, so the response holds exactly
one entry per issued task, positionally: the i-th entry is determined by
the i-th task alone. -/
theorem fanout_isolates_per_platform_failures
    (results : List (String × ConnOutcome)) (i : Nat)
    (h : i < results.length) :
    (getCurrentAggregatedVolume results).individual_platforms.length
        = results.length ∧
    (getCurrentAggregatedVolume results).individual_platforms[i]? =
      some (match results.get ⟨i, h⟩ with
        | (p, ConnOutcome.exc m) => ⟨p, none, 0, some m⟩
        | (_, ConnOutcome.ok info) => info
        | (p, ConnOutcome.noData) => ⟨p, none, 0, some "No data returned"⟩) := by
  rw [getCurrentAggregatedVolume_eq]
  refine ⟨by simp, ?_⟩
  have hmap : (results.map fanoutEntry)[i]? = (results[i]?).map fanoutEntry := by
    simp
  rw [hmap, List.getElem?_eq_getElem h]
  simp only [Option.map_some, Option.some.injEq, List.get_eq_getElem]
  rcases hget : results[i] with ⟨p, r⟩
  cases r <;> simp [fanoutEntry, hget]

/-- Witness for the C4 theorem: a two-task fan-out in which the first task
raised and the second returned; both entries are present, the raised one
converted to data. -/
theorem fanout_isolates_per_platform_failures_witness :
    (0 : Nat) < [("woox", ConnOutcome.exc "connection reset"),
        ("paradex", ConnOutcome.ok ⟨"paradex", none, 200, none⟩)].length ∧
    ((getCurrentAggregatedVolume
        [("woox", ConnOutcome.exc "connection reset"),
         ("paradex", ConnOutcome.ok ⟨"paradex", none, 200, none⟩)]).individual_platforms.length = 2 ∧
      (getCurrentAggregatedVolume
        [("woox", ConnOutcome.exc "connection reset"),
         ("paradex", ConnOutcome.ok ⟨"paradex", none, 200, none⟩)]).individual_platforms[0]? =
        some ⟨"woox", none, 0, some "connection reset"⟩) := by
  refine ⟨by decide, ?_⟩
  exact fanout_isolates_per_platform_failures
    [("woox", ConnOutcome.exc "connection reset"),
     ("paradex", ConnOutcome.ok ⟨"paradex", none, 200, none⟩)] 0 (by decide)

/-- Python exception kinds raised by the embedded service and connector
paths: a failed module-global name lookup and a failed module attribute
lookup. -/
inductive PyExc where
  | nameError (name : String)
  | attributeError (attr : String)
deriving DecidableEq, Repr

/-- Names bound at module level in woox_connector.py: the module imports
httpx, time, hashlib, hmac, names from datetime/typing/decimal, asyncio,
the base class, schemas, PlatformEnum and settings — and never imports
`logging`, although the module body refers to `logging` throughout. -/
def wooxModuleGlobals : List String :=
  ["httpx", "time", "hashlib", "hmac", "datetime", "date", "timezone",
   "timedelta", "List", "Dict", "Any", "Optional", "Decimal", "asyncio",
   "BaseExchangeConnector", "schemas", "PlatformEnum", "settings",
   "WooXConnector"]

/-- Modelled from the Python standard library: attribute names the
connector code looks up on the `asyncio` module.  No version of `asyncio`
defines an attribute `timedelta` (the class lives in `datetime`, which
paradex_connector.py imports only partially: `datetime, date, timezone`). -/
def asyncioModuleAttrs : List String := ["sleep", "gather", "wait_for", "run"]

/-- Platforms registered in `AggregationService.__init__` (`self.connectors`
holds exactly the WooX and Paradex connectors; the Bybit and Hyperliquid
registrations are commented out in the source). -/
def registeredConnectors : List String := ["woox", "paradex"]

/-- Module-level functions defined in crud/crud_api_key.py.  The
credential lookup of the aggregation service
(`_get_active_api_key_for_platform`, aggregation_service.py line 49)
refers to `crud_api_key.get_api_key_by_platform`, which is not among
them (the module defines `get_api_keys_by_platform`, plural). -/
def crudApiKeyModuleAttrs : List String :=
  ["get_api_key", "get_api_keys_by_platform", "get_all_api_keys",
   "create_api_key", "delete_api_key", "get_decrypted_api_key_details"]

/-- Embedding of `AggregationService.get_current_volume_for_platform`
(aggregation_service.py lines 404-425).  The registry lookup and the
"Connector not found" early return come first (lines 405-408).  Then —
outside the try block — line 410 calls
`_get_active_api_key_for_platform`, whose first statement resolves the
module attribute `crud_api_key.get_api_key_by_platform`; attribute lookup
on a module raises `AttributeError` when the attribute is absent, so the
function runs in `Except` over the crud module's attribute table.  Only
after a successful lookup does the try/except-wrapped connector call run;
`outcome` gives, per platform, what that `get_latest_24h_volume` call
would do (return a value, return `None`, or raise). -/
def getCurrentVolumeForPlatform (crudAttrs : List String)
    (outcome : String → ConnOutcome) (platform_name : String) :
    Except PyExc (Option ExchangeVolumeInfo) :=
  if platform_name ∈ registeredConnectors then
    if "get_api_key_by_platform" ∈ crudAttrs then
      Except.ok (match outcome platform_name with
        | ConnOutcome.ok info => some info
        | ConnOutcome.noData =>
            some ⟨platform_name, none, 0, some "No data returned by connector"⟩
        | ConnOutcome.exc m => some ⟨platform_name, none, 0, some m⟩)
    else Except.error (PyExc.attributeError "get_api_key_by_platform")
  else
    Except.ok (some ⟨platform_name, none, 0, some "Connector not found"⟩)

/-- C10, code bug: instead of never raising,
`get_current_volume_for_platform` raises `AttributeError` for every
registered platform — its credential lookup (line 410, before the try
block) resolves `crud_api_key.get_api_key_by_platform`, a function
crud_api_key.py does not define; only an unregistered platform returns
without raising (the zero-volume "Connector not found" info).  Under a
crud module that does expose the lookup, the function behaves exactly as
the claim states: it never returns `None`; an unregistered platform, a
raised connector call, and a `None` connector result each produce a
zero-volume info whose error field is populated (the fixed messages, or
the exception's own message); and a returned `ExchangeVolumeInfo` passes
through unchanged — the only case whose error field may be absent. -/
theorem getCurrentVolumeForPlatform_registered_platforms_raise
    (outcome : String → ConnOutcome) (p : String) :
    (p ∈ registeredConnectors →
      getCurrentVolumeForPlatform crudApiKeyModuleAttrs outcome p =
        Except.error (PyExc.attributeError "get_api_key_by_platform")) ∧
    (p ∉ registeredConnectors →
      getCurrentVolumeForPlatform crudApiKeyModuleAttrs outcome p =
        Except.ok (some ⟨p, none, 0, some "Connector not found"⟩)) ∧
    (∀ crudAttrs, "get_api_key_by_platform" ∈ crudAttrs →
      (∃ info, getCurrentVolumeForPlatform crudAttrs outcome p =
          Except.ok (some info) ∧
        (info.error = none → outcome p = ConnOutcome.ok info)) ∧
      (p ∉ registeredConnectors →
        getCurrentVolumeForPlatform crudAttrs outcome p =
          Except.ok (some ⟨p, none, 0, some "Connector not found"⟩)) ∧
      (∀ m, p ∈ registeredConnectors → outcome p = ConnOutcome.exc m →
        getCurrentVolumeForPlatform crudAttrs outcome p =
          Except.ok (some ⟨p, none, 0, some m⟩)) ∧
      (p ∈ registeredConnectors → outcome p = ConnOutcome.noData →
        getCurrentVolumeForPlatform crudAttrs outcome p =
          Except.ok (some ⟨p, none, 0,
            some "No data returned by connector"⟩)) ∧
      (∀ info, p ∈ registeredConnectors → outcome p = ConnOutcome.ok info →
        getCurrentVolumeForPlatform crudAttrs outcome p =
          Except.ok (some info))) := by
  have habs : ¬ ("get_api_key_by_platform" ∈ crudApiKeyModuleAttrs) := by
    decide
  refine ⟨?_, ?_, ?_⟩
  · intro hp
    simp [getCurrentVolumeForPlatform, hp, habs]
  · intro hnp
    simp [getCurrentVolumeForPlatform, hnp]
  · intro crudAttrs hcrud
    refine ⟨?_, ?_, ?_, ?_, ?_⟩
    · by_cases hp : p ∈ registeredConnectors
      · cases ho : outcome p with
        | ok info =>
            refine ⟨info, ?_, fun _ => rfl⟩
            simp [getCurrentVolumeForPlatform, hp, hcrud, ho]
        | noData =>
            refine ⟨⟨p, none, 0, some "No data returned by connector"⟩,
              ?_, ?_⟩
            · simp [getCurrentVolumeForPlatform, hp, hcrud, ho]
            · intro hc
              simp at hc
        | exc m =>
            refine ⟨⟨p, none, 0, some m⟩, ?_, ?_⟩
            · simp [getCurrentVolumeForPlatform, hp, hcrud, ho]
            · intro hc
              simp at hc
      · refine ⟨⟨p, none, 0, some "Connector not found"⟩, ?_, ?_⟩
        · simp [getCurrentVolumeForPlatform, hp]
        · intro hc
          simp at hc
    · intro hnp
      simp [getCurrentVolumeForPlatform, hnp]
    · intro m hp hm
      simp [getCurrentVolumeForPlatform, hp, hcrud, hm]
    · intro hp hm
      simp [getCurrentVolumeForPlatform, hp, hcrud, hm]
    · intro info hp hm
      simp [getCurrentVolumeForPlatform, hp, hcrud, hm]

/-- Witness for the C10 theorem: the registered platform "woox" raises
the `AttributeError`, the unregistered "bybit" returns the "Connector
not found" info, and under a crud table extended with the missing
function a raising "woox" call yields the entry carrying the exception's
message. -/
theorem getCurrentVolumeForPlatform_registered_platforms_raise_witness :
    ("woox" ∈ registeredConnectors ∧ "bybit" ∉ registeredConnectors ∧
      "get_api_key_by_platform" ∈
        "get_api_key_by_platform" :: crudApiKeyModuleAttrs) ∧
    (getCurrentVolumeForPlatform crudApiKeyModuleAttrs
        (fun _ => ConnOutcome.exc "boom") "woox" =
      Except.error (PyExc.attributeError "get_api_key_by_platform") ∧
    getCurrentVolumeForPlatform crudApiKeyModuleAttrs
        (fun _ => ConnOutcome.exc "boom") "bybit" =
      Except.ok (some ⟨"bybit", none, 0, some "Connector not found"⟩) ∧
    getCurrentVolumeForPlatform
        ("get_api_key_by_platform" :: crudApiKeyModuleAttrs)
        (fun _ => ConnOutcome.exc "boom") "woox" =
      Except.ok (some ⟨"woox", none, 0, some "boom"⟩)) := by
  have h := getCurrentVolumeForPlatform_registered_platforms_raise
    (fun _ => ConnOutcome.exc "boom")
  refine ⟨⟨by decide, by decide, by decide⟩, ?_, ?_, ?_⟩
  · exact (h "woox").1 (by decide)
  · exact (h "bybit").2.1 (by decide)
  · exact ((h "woox").2.2
      ("get_api_key_by_platform" :: crudApiKeyModuleAttrs)
      (by decide)).2.2.1 "boom" (by decide) rfl

/-- Raw trade row of the WooX private trade endpoints, with the fields the
connector reads: `id`, `executed_timestamp`, `executed_price`,
`executed_quantity`. -/
structure WooxTrade where
  id : Nat
  executed_timestamp : Nat
  executed_price : ℚ
  executed_quantity : ℚ
deriving DecidableEq, Repr

/-- One response page of a WooX trade endpoint as the connector reads it:
the API-level `success` flag, the `rows` list, and the `meta` pagination
fields used by the page-numbered endpoint. -/
structure WooxPage where
  success : Bool
  rows : List WooxTrade
  currentPage : Nat
  totalPage : Nat
deriving Repr

/-- Pagination mode of `WooXConnector._fetch_trades_from_endpoint`: the
`/v1/client/trades` endpoint advances a page number, while
`/v1/client/hist_trades` advances a `fromId` cursor. -/
inductive WooxPageMode where
  | byPage
  | byFromId
deriving DecidableEq, Repr

/-- Absolute page-iteration cap of the WooX pagination loop
(`max_pages_safety = 200` in `_fetch_trades_from_endpoint`). -/
def wooxMaxPagesSafety : Nat := 200

/-- Loop body of `WooXConnector._fetch_trades_from_endpoint`
(woox_connector.py lines 71-172), embedded over an abstract page source
(`pages i` is what the i-th fetch returns, as in a mock page source) and
over the module's global-name environment.  Each iteration's first
statement inside the retry try-block is `logging.info` (line 101); when
the name `logging` is not bound among the module globals that lookup
raises `NameError`, the generic handler at line 165 catches it, and the
handler's own `logging.error` (line 166) raises `NameError` again,
uncaught — aborting the whole call before any fetch.  With the name
resolvable the iteration proceeds: `remaining` counts the iterations the
guard `loop_count < max_pages_safety` still allows, and the returned
`Nat` is the number of fetches performed.  The bounded 429/5xx retry
sub-loop never advances the cursor, runs at most three times per page,
and is invisible over a mock source that always answers, so it is not
represented.  Exit paths mirrored from the source: exhausted guard
returns the accumulation (line 172); API-level failure (`success` false)
returns the accumulation; an empty `rows` page returns the accumulation;
in page mode a `current_page >= total_page` response ends the scan,
otherwise the page number advances; in cursor mode a short page ends the
scan, otherwise `fromId` becomes the last row's id. -/
def fetchTradesLoop (globals : List String) (mode : WooxPageMode)
    (pages : Nat → WooxPage) (pageSize : Nat) :
    Nat → Nat → Nat → List WooxTrade → Except PyExc (List WooxTrade × Nat)
  | 0, fetchCount, _, acc => Except.ok (acc, fetchCount)
  | remaining + 1, fetchCount, cur, acc =>
      if "logging" ∈ globals then
        let page := pages fetchCount
        if page.success = false then Except.ok (acc, fetchCount + 1)
        else if page.rows.isEmpty then Except.ok (acc, fetchCount + 1)
        else
          let acc2 := acc ++ page.rows
          match mode with
          | WooxPageMode.byPage =>
              if page.totalPage ≤ page.currentPage then
                Except.ok (acc2, fetchCount + 1)
              else fetchTradesLoop globals mode pages pageSize remaining
                (fetchCount + 1) (cur + 1) acc2
          | WooxPageMode.byFromId =>
              if page.rows.length < pageSize then
                Except.ok (acc2, fetchCount + 1)
              else fetchTradesLoop globals mode pages pageSize remaining
                (fetchCount + 1)
                (match page.rows.getLast? with
                  | some t => t.id
                  | none => cur) acc2
      else Except.error (PyExc.nameError "logging")

/-- Embedding of `WooXConnector._fetch_trades_from_endpoint` run against
an abstract page source under a given module-global environment:
pagination starting from the initial page value, guarded by
`max_pages_safety`.  On the success path it returns the accumulated
trades and the number of page fetches performed; with `logging` unbound
it raises `NameError` on the first iteration. -/
def fetchTradesFromEndpoint (globals : List String) (mode : WooxPageMode)
    (pages : Nat → WooxPage) (pageSize : Nat) (initialPageValue : Nat) :
    Except PyExc (List WooxTrade × Nat) :=
  fetchTradesLoop globals mode pages pageSize wooxMaxPagesSafety 0
    initialPageValue []

lemma fetchTradesLoop_ok_count_le (globals : List String)
    (hlog : "logging" ∈ globals) (mode : WooxPageMode)
    (pages : Nat → WooxPage) (pageSize : Nat)
    (remaining fetchCount cur : Nat) (acc : List WooxTrade) :
    ∃ items fetches,
      fetchTradesLoop globals mode pages pageSize remaining fetchCount cur
          acc = Except.ok (items, fetches) ∧
      fetches ≤ fetchCount + remaining := by
  induction remaining generalizing fetchCount cur acc with
  | zero => exact ⟨acc, fetchCount, rfl, by omega⟩
  | succ k ih =>
      unfold fetchTradesLoop
      rw [if_pos hlog]
      dsimp only
      split
      · exact ⟨acc, fetchCount + 1, rfl, by omega⟩
      · split
        · exact ⟨acc, fetchCount + 1, rfl, by omega⟩
        · split
          · split
            · exact ⟨acc ++ (pages fetchCount).rows, fetchCount + 1, rfl,
                by omega⟩
            · obtain ⟨items, fetches, heq, hle⟩ := ih (fetchCount + 1)
                (cur + 1) (acc ++ (pages fetchCount).rows)
              exact ⟨items, fetches, heq, by omega⟩
          · split
            · exact ⟨acc ++ (pages fetchCount).rows, fetchCount + 1, rfl,
                by omega⟩
            · obtain ⟨items, fetches, heq, hle⟩ := ih (fetchCount + 1)
                (match (pages fetchCount).rows.getLast? with
                  | some t => t.id
                  | none => cur) (acc ++ (pages fetchCount).rows)
              exact ⟨items, fetches, heq, by omega⟩

/-- Raw fill object of Paradex `/v1/account/list-fills`, with the fields
the connector reads: a creation timestamp (`created_at`), `price`, and
`size`. -/
structure ParadexFill where
  created_at : Nat
  price : ℚ
  size : ℚ
deriving DecidableEq, Repr

/-- One response page of `/v1/account/list-fills` as the connector reads
it: the `results` list and the `next` continuation cursor (`None` or a
string; the empty string is falsy in Python and also ends the loop). -/
structure ParadexPage where
  results : List ParadexFill
  next : Option String
deriving Repr

/-- Embedding of the pagination loop of
`ParadexConnector.get_user_historical_fills` (paradex_connector.py lines
59-110) over an abstract page source.  The source loop is `while True:`
with no page-iteration cap; the only exits on the success path are a
missing or falsy `next` cursor.  `fuel` is the number of page iterations
the observer allows: a `none` result means the loop was still running
when the allowance ran out, `some fills` means the loop returned.  The
bounded 429/5xx retry sub-loop never advances the cursor and is invisible
over a mock source that always answers, so it is not represented. -/
def getUserHistoricalFillsLoop (pages : Nat → ParadexPage) :
    Nat → Nat → List ParadexFill → Option (List ParadexFill)
  | 0, _, _ => none
  | fuel + 1, fetchCount, acc =>
      let page := pages fetchCount
      let acc2 := acc ++ page.results
      match page.next with
      | none => some acc2
      | some c =>
          if c = "" then some acc2
          else getUserHistoricalFillsLoop pages fuel (fetchCount + 1) acc2

/-- Mock page source whose every page is full and carries a continuation
cursor that never empties — the adversarial source of the spec's
pagination regression test. -/
def alwaysNextParadexPages : Nat → ParadexPage :=
  fun _ => ⟨[⟨0, 1, 1⟩], some "cursor"⟩

/-- Mock WooX page-numbered source that always reports a further page
(`total_page` always exceeds `current_page`) with a non-empty full row
set. -/
def alwaysFullWooxPages : Nat → WooxPage :=
  fun _ => ⟨true, [⟨0, 0, 1, 1⟩], 1, 2⟩

/-- C1, counterexample: run against the always-full mock page source, the
Paradex pagination loop of `get_user_historical_fills` is still running
after 201 page iterations — one more than the only configured absolute
page-iteration cap in the code base (`max_pages_safety = 200`); it never
returns the accumulated fills. -/
theorem getUserHistoricalFills_unbounded_on_full_pages :
    getUserHistoricalFillsLoop alwaysNextParadexPages 201 0 [] = none := by
  decide

/-- C1, amended: neither connector meets the claim as written.  The WooX
loop's guard does cap it at the configured absolute maximum of 200 page
iterations, but the missing `logging` import makes
`_fetch_trades_from_endpoint` raise `NameError` on its first iteration,
before any fetch, so it never returns the items accumulated so far;
under an environment that binds `logging` (the evident intent, and the
fix C3 records) it terminates within 200 page iterations for every page
source, page size, mode and initial page value, returning the
accumulation.  The Paradex pagination loop of
`get_user_historical_fills` has no absolute page-iteration cap at all:
over any page source whose continuation cursor never empties it is still
running after every finite number of page iterations. -/
theorem pagination_bound_holds_for_woox_not_paradex
    (mode : WooxPageMode) (pages : Nat → WooxPage)
    (pageSize initialPage : Nat) :
    fetchTradesFromEndpoint wooxModuleGlobals mode pages pageSize
        initialPage = Except.error (PyExc.nameError "logging") ∧
    (∀ globals, "logging" ∈ globals →
      ∃ items fetches,
        fetchTradesFromEndpoint globals mode pages pageSize initialPage =
          Except.ok (items, fetches) ∧ fetches ≤ wooxMaxPagesSafety) ∧
    (∀ pages2 : Nat → ParadexPage,
      (∀ i, ∃ c, (pages2 i).next = some c ∧ c ≠ "") →
      ∀ fuel fetchCount acc,
        getUserHistoricalFillsLoop pages2 fuel fetchCount acc = none) := by
  refine ⟨rfl, ?_, ?_⟩
  · intro globals hlog
    obtain ⟨items, fetches, heq, hle⟩ := fetchTradesLoop_ok_count_le
      globals hlog mode pages pageSize wooxMaxPagesSafety 0 initialPage []
    exact ⟨items, fetches, heq, by omega⟩
  · intro pages2 hcur fuel
    induction fuel with
    | zero => intro fetchCount acc; rfl
    | succ n ih =>
        intro fetchCount acc
        obtain ⟨c, hc, hne⟩ := hcur fetchCount
        unfold getUserHistoricalFillsLoop
        dsimp only
        rw [hc]
        simp only [hne, if_false, if_neg hne]
        exact ih (fetchCount + 1) (acc ++ (pages2 fetchCount).results)

/-- Witness for the amended C1 theorem: the real WooX module raises on
the always-full mock source, the repaired module's run on the same
source returns within the 200-iteration cap, and the Paradex loop on the
always-cursor source has not returned after 300 iterations. -/
theorem pagination_bound_holds_for_woox_not_paradex_witness :
    ("logging" ∈ "logging" :: wooxModuleGlobals ∧
      (∀ i, ∃ c, (alwaysNextParadexPages i).next = some c ∧ c ≠ "")) ∧
    (fetchTradesFromEndpoint wooxModuleGlobals WooxPageMode.byPage
        alwaysFullWooxPages 100 1 =
      Except.error (PyExc.nameError "logging") ∧
    (∃ items fetches,
      fetchTradesFromEndpoint ("logging" :: wooxModuleGlobals)
          WooxPageMode.byPage alwaysFullWooxPages 100 1 =
        Except.ok (items, fetches) ∧ fetches ≤ wooxMaxPagesSafety) ∧
    getUserHistoricalFillsLoop alwaysNextParadexPages 300 0 [] = none) := by
  have hcur : ∀ i, ∃ c, (alwaysNextParadexPages i).next = some c ∧ c ≠ "" :=
    fun _ => ⟨"cursor", rfl, by decide⟩
  have h := pagination_bound_holds_for_woox_not_paradex WooxPageMode.byPage
    alwaysFullWooxPages 100 1
  exact ⟨⟨by decide, hcur⟩, h.1,
    h.2.1 ("logging" :: wooxModuleGlobals) (by decide),
    h.2.2 alwaysNextParadexPages hcur 300 0 []⟩

/-- Python exception kinds raised by the embedded service and connector
paths: a failed module-global name lookup and a failed module attribute
lookup. -/
def paradexGetLatest24hVolume (auth_params : List (String × String)) :
    Except PyExc ExchangeVolumeInfo :=
  if "timedelta" ∈ asyncioModuleAttrs then
    Except.ok ⟨"paradex", some "PARADEX_ACCOUNT_TOTAL", 0,
      some "Accurate 24h total user volume requires iterating all traded markets; not fully implemented."⟩
  else Except.error (PyExc.attributeError "timedelta")

/-- Embedding of `WooXConnector.get_latest_24h_volume` (woox_connector.py
lines 309-361).  With no credentials the body executes
`logging.error(...)` (line 317) before returning its zero-volume
error-annotated info; with credentials it executes `logging.warning(...)`
(line 336) unconditionally before returning the zero-volume placeholder
info (the running total is never incremented, so the error message is
attached).  Either path resolves the module-global name `logging`, which
woox_connector.py never imports, so name resolution decides the result. -/
def wooxGetLatest24hVolume (auth_params : Option (List (String × String))) :
    Except PyExc ExchangeVolumeInfo :=
  match auth_params with
  | none =>
      if "logging" ∈ wooxModuleGlobals then
        Except.ok ⟨"woox", none, 0, some "API credentials not provided."⟩
      else Except.error (PyExc.nameError "logging")
  | some _ =>
      if "logging" ∈ wooxModuleGlobals then
        Except.ok ⟨"woox", some "WOOX_ACCOUNT_TOTAL", 0,
          some "Accurate 24h total user volume requires iterating all traded markets; not fully implemented for WOOX."⟩
      else Except.error (PyExc.nameError "logging")

/-- C3, code bug: instead of never raising, both connectors'
`get_latest_24h_volume` raise on every call — Paradex because line 188
looks up the nonexistent `asyncio.timedelta` (`AttributeError`), WooX
because the module never imports `logging` yet the body calls
`logging.warning`/`logging.error` (`NameError`) — so the zero-volume,
error-annotated `ExchangeVolumeInfo` returns that the claim describes
(and that the code visibly intends at woox lines 318-323/354-360 and
paradex lines 255-261) are never reached. -/
theorem getLatest24hVolume_raises_on_every_call :
    paradexGetLatest24hVolume [("jwt_token", "token")] =
      Except.error (PyExc.attributeError "timedelta") ∧
    wooxGetLatest24hVolume (some [("api_key", "k"), ("api_secret", "s")]) =
      Except.error (PyExc.nameError "logging") ∧
    wooxGetLatest24hVolume none = Except.error (PyExc.nameError "logging") := by
  refine ⟨?_, ?_, ?_⟩ <;> rfl

/-- Daily kline summary built by the connectors' `get_historical_klines`
(the `schemas.HistoricalKline` constructor calls in both connectors use
exactly these fields: day-start timestamp, open, high, low, close and
quote volume). -/
structure HistoricalKline where
  timestamp : Nat
  open_price : ℚ
  high : ℚ
  low : ℚ
  close_price : ℚ
  volume : ℚ
deriving DecidableEq, Repr

/-- Persisted historical-volume row, carrying the (platform, symbol, date)
key that the unique index `idx_platform_symbol_date` enforces and the
day's quote volume. -/
structure HistoricalVolumeRow where
  platform : String
  symbol : String
  date : Nat
  volume_quote : ℚ
deriving DecidableEq, Repr

/-- Uniqueness key of a persisted row: (platform, symbol, date). -/
def rowKey (r : HistoricalVolumeRow) : String × String × Nat :=
  (r.platform, r.symbol, r.date)

/-- Test for a key already present in the store. -/
def keyPresent (store : List HistoricalVolumeRow) (k : String × String × Nat) :
    Bool :=
  store.any (fun x => rowKey x == k)

/-- Embedding of `bulk_insert_historical_volumes`
(crud_historical_volume.py lines 99-129): a multi-row
`INSERT ... ON CONFLICT DO NOTHING` against the unique
(platform, symbol, date) index — each row of the batch is appended
exactly when its key is not yet present (conflicts with rows appended
earlier in the same statement are likewise skipped). -/
def bulkInsertHistoricalVolumes (store : List HistoricalVolumeRow)
    (recs : List HistoricalVolumeRow) : List HistoricalVolumeRow :=
  recs.foldl
    (fun st r => if keyPresent st (rowKey r) then st else st ++ [r]) store

/-- Embedding of the persist statement actually executed by
`fetch_and_store_historical_data_for_platform` (aggregation_service.py
line 256): `self.db.execute(HistoricalVolume.__table__.insert(), rows)` —
a plain multi-row INSERT with no conflict handling; every row is
appended. -/
def plainBatchInsert (store recs : List HistoricalVolumeRow) :
    List HistoricalVolumeRow :=
  store ++ recs

/-- Persistence effect of one run of
`fetch_and_store_historical_data_for_platform` (aggregation_service.py
lines 223-259) over the platform's configured symbols: for each symbol in
order, the connector's daily kline summaries become rows keyed by
(platform, symbol, day) and are written with the plain batch insert of
line 256 — not with `bulk_insert_historical_volumes`, which no caller in
the repository uses. -/
def fetchAndStoreHistoricalRun (klines : String → List HistoricalKline)
    (platform : String) (symbols : List String)
    (store : List HistoricalVolumeRow) : List HistoricalVolumeRow :=
  symbols.foldl
    (fun st sym =>
      plainBatchInsert st
        ((klines sym).map (fun k => ⟨platform, sym, k.timestamp, k.volume⟩)))
    store

lemma keyPresent_bulkInsert_mono (recs : List HistoricalVolumeRow)
    (store : List HistoricalVolumeRow) (k : String × String × Nat)
    (h : keyPresent store k = true) :
    keyPresent (bulkInsertHistoricalVolumes store recs) k = true := by
  induction recs generalizing store with
  | nil => exact h
  | cons r rest ih =>
      unfold bulkInsertHistoricalVolumes
      dsimp only [List.foldl_cons]
      by_cases hr : keyPresent store (rowKey r) = true
      · rw [if_pos hr]
        exact ih store h
      · rw [if_neg hr]
        refine ih (store ++ [r]) ?_
        unfold keyPresent at h ⊢
        simp only [List.any_append, h, Bool.true_or]

lemma keyPresent_after_bulkInsert (recs : List HistoricalVolumeRow)
    (store : List HistoricalVolumeRow) (r : HistoricalVolumeRow)
    (h : r ∈ recs) :
    keyPresent (bulkInsertHistoricalVolumes store recs) (rowKey r) = true := by
  induction recs generalizing store with
  | nil => cases h
  | cons q rest ih =>
      unfold bulkInsertHistoricalVolumes
      dsimp only [List.foldl_cons]
      rcases List.mem_cons.mp h with heq | hmem
      · subst heq
        by_cases hq : keyPresent store (rowKey r) = true
        · rw [if_pos hq]
          exact keyPresent_bulkInsert_mono rest store (rowKey r) hq
        · rw [if_neg hq]
          refine keyPresent_bulkInsert_mono rest (store ++ [r]) (rowKey r) ?_
          unfold keyPresent
          simp
      · by_cases hq : keyPresent store (rowKey q) = true
        · rw [if_pos hq]
          exact ih store hmem
        · rw [if_neg hq]
          exact ih (store ++ [q]) hmem

lemma bulkInsert_of_all_present (recs : List HistoricalVolumeRow)
    (store : List HistoricalVolumeRow)
    (h : ∀ r ∈ recs, keyPresent store (rowKey r) = true) :
    bulkInsertHistoricalVolumes store recs = store := by
  induction recs with
  | nil => rfl
  | cons r rest ih =>
      unfold bulkInsertHistoricalVolumes at ih ⊢
      dsimp only [List.foldl_cons]
      rw [if_pos (h r (List.mem_cons_self r rest))]
      exact ih (fun q hq => h q (List.mem_cons_of_mem r hq))

/-- Connector output used to exercise the backfill twice: one daily
summary (the spec's day-1 example record) for every queried symbol. -/
def backfillExampleKlines : String → List HistoricalKline :=
  fun _ => [⟨0, 60000, 61000, 60000, 61000, 1820⟩]

/-- C5, code bug: the crud helper `bulk_insert_historical_volumes` does
implement the insert-or-ignore policy the claim describes — re-running it
over an already-inserted batch leaves the store unchanged, for every
store and batch — but `fetch_and_store_historical_data_for_platform`
never calls it: its persist step is the plain batch INSERT of
aggregation_service.py line 256, and running that backfill twice over the
same platform, symbols and range does not yield the same persisted record
set as running it once (the (platform, symbol, date) key is re-inserted,
duplicating the row, or is rejected by the unique index rather than
ignored). -/
theorem backfill_is_plain_insert_not_insert_or_ignore :
    (∀ store recs : List HistoricalVolumeRow,
      bulkInsertHistoricalVolumes (bulkInsertHistoricalVolumes store recs)
          recs =
        bulkInsertHistoricalVolumes store recs) ∧
    (fetchAndStoreHistoricalRun backfillExampleKlines "woox" ["PERP_BTC_USDT"]
        (fetchAndStoreHistoricalRun backfillExampleKlines "woox"
          ["PERP_BTC_USDT"] []) ≠
      fetchAndStoreHistoricalRun backfillExampleKlines "woox"
        ["PERP_BTC_USDT"] []) := by
  constructor
  · intro store recs
    exact bulkInsert_of_all_present recs (bulkInsertHistoricalVolumes store recs)
      (fun r hr => keyPresent_after_bulkInsert recs store r hr)
  · intro hcontra
    have hlen := congrArg List.length hcontra
    simp [fetchAndStoreHistoricalRun, plainBatchInsert,
      backfillExampleKlines] at hlen

/-- UTF-8 bytes of a string, each below 256 (`str.encode('utf-8')`). -/
def strBytes (s : String) : List Nat :=
  s.toUTF8.toList.map (fun b => b.toNat)

/-- Modulus of 32-bit machine words. -/
def w32 : Nat := 4294967296

/-- Addition modulo 2^32. -/
def add32 (a b : Nat) : Nat := (a + b) % w32

/-- Right rotation of a 32-bit word. -/
def rotr32 (x n : Nat) : Nat :=
  (Nat.shiftRight x n + Nat.shiftLeft x (32 - n)) % w32

/-- Bitwise complement of a 32-bit word. -/
def not32 (x : Nat) : Nat := 4294967295 - x

/-- SHA-256 choice function. -/
def sha256Ch (x y z : Nat) : Nat := Nat.xor (Nat.land x y) (Nat.land (not32 x) z)

/-- SHA-256 majority function. -/
def sha256Maj (x y z : Nat) : Nat :=
  Nat.xor (Nat.xor (Nat.land x y) (Nat.land x z)) (Nat.land y z)

/-- SHA-256 big sigma 0. -/
def sha256S0 (x : Nat) : Nat :=
  Nat.xor (Nat.xor (rotr32 x 2) (rotr32 x 13)) (rotr32 x 22)

/-- SHA-256 big sigma 1. -/
def sha256S1 (x : Nat) : Nat :=
  Nat.xor (Nat.xor (rotr32 x 6) (rotr32 x 11)) (rotr32 x 25)

/-- SHA-256 small sigma 0. -/
def sha256s0 (x : Nat) : Nat :=
  Nat.xor (Nat.xor (rotr32 x 7) (rotr32 x 18)) (Nat.shiftRight x 3)

/-- SHA-256 small sigma 1. -/
def sha256s1 (x : Nat) : Nat :=
  Nat.xor (Nat.xor (rotr32 x 17) (rotr32 x 19)) (Nat.shiftRight x 10)

/-- SHA-256 round constants. -/
def sha256K : List Nat :=
  [1116352408, 1899447441, 3049323471, 3921009573, 961987163,
   1508970993, 2453635748, 2870763221, 3624381080, 310598401,
   607225278, 1426881987, 1925078388, 2162078206, 2614888103,
   3248222580, 3835390401, 4022224774, 264347078, 604807628,
   770255983, 1249150122, 1555081692, 1996064986, 2554220882,
   2821834349, 2952996808, 3210313671, 3336571891, 3584528711,
   113926993, 338241895, 666307205, 773529912, 1294757372,
   1396182291, 1695183700, 1986661051, 2177026350, 2456956037,
   2730485921, 2820302411, 3259730800, 3345764771, 3516065817,
   3600352804, 4094571909, 275423344, 430227734, 506948616,
   659060556, 883997877, 958139571, 1322822218, 1537002063,
   1747873779, 1955562222, 2024104815, 2227730452, 2361852424,
   2428436474, 2756734187, 3204031479, 3329325298]

/-- SHA-256 initial hash state. -/
def sha256InitH : List Nat :=
  [1779033703, 3144134277, 1013904242, 2773480762,
   1359893119, 2600822924, 528734635, 1541459225]

/-- Big-endian byte decomposition of `x` into `n` bytes. -/
def beBytes (n x : Nat) : List Nat :=
  (List.range n).map (fun i => Nat.shiftRight x (8 * (n - 1 - i)) % 256)

/-- SHA-256 message padding: append the 0x80 marker, zero fill to 56 mod
64, and the 64-bit big-endian bit length. -/
def sha256Pad (msg : List Nat) : List Nat :=
  msg ++ [128] ++ List.replicate ((64 - ((msg.length + 9) % 64)) % 64) 0 ++
    beBytes 8 (8 * msg.length)

/-- Split a padded message into its 64-byte blocks. -/
def sha256Blocks (bs : List Nat) : List (List Nat) :=
  (List.range (bs.length / 64)).map (fun i => (bs.drop (64 * i)).take 64)

/-- First sixteen 32-bit message-schedule words of a block. -/
def sha256BlockWords (block : List Nat) : List Nat :=
  (List.range 16).map (fun j =>
    block.getD (4 * j) 0 * 16777216 + block.getD (4 * j + 1) 0 * 65536 +
      block.getD (4 * j + 2) 0 * 256 + block.getD (4 * j + 3) 0)

/-- Message-schedule extension of a block to 64 words. -/
def sha256Schedule (ws : List Nat) : List Nat :=
  (List.range 48).foldl
    (fun w _ =>
      let n := w.length
      w ++ [add32
        (add32 (sha256s1 (w.getD (n - 2) 0)) (w.getD (n - 7) 0))
        (add32 (sha256s0 (w.getD (n - 15) 0)) (w.getD (n - 16) 0))])
    ws

/-- One SHA-256 block compression (64 rounds, with the feed-forward
addition into the chaining state). -/
def sha256Compress (h : List Nat) (block : List Nat) : List Nat :=
  let w := sha256Schedule (sha256BlockWords block)
  let fin := (List.range 64).foldl
    (fun (st : List Nat) t =>
      let a := st.getD 0 0
      let b := st.getD 1 0
      let c := st.getD 2 0
      let d := st.getD 3 0
      let e := st.getD 4 0
      let f := st.getD 5 0
      let g := st.getD 6 0
      let hh := st.getD 7 0
      let t1 := add32 (add32 (add32 hh (sha256S1 e))
        (add32 (sha256Ch e f g) (sha256K.getD t 0))) (w.getD t 0)
      let t2 := add32 (sha256S0 a) (sha256Maj a b c)
      [add32 t1 t2, a, b, c, add32 d t1, e, f, g])
    h
  (List.range 8).map (fun i => add32 (h.getD i 0) (fin.getD i 0))

/-- SHA-256 of a byte string, as the eight 32-bit state words. -/
def sha256Words (msg : List Nat) : List Nat :=
  (sha256Blocks (sha256Pad msg)).foldl sha256Compress sha256InitH

/-- SHA-256 of a byte string, as 32 bytes. -/
def sha256Bytes (msg : List Nat) : List Nat :=
  ((sha256Words msg).map (beBytes 4)).flatten

/-- Lower-case hexadecimal digit. -/
def hexChar (n : Nat) : Char :=
  if n < 10 then Char.ofNat (48 + n) else Char.ofNat (87 + n)

/-- Lower-case hexadecimal rendering of a byte string (`.hexdigest()`). -/
def bytesToHex (bs : List Nat) : String :=
  String.mk ((bs.map (fun b => [hexChar (b / 16), hexChar (b % 16)])).flatten)

/-- HMAC-SHA256 hex digest (`hmac.new(key, msg, hashlib.sha256).hexdigest()`):
a key longer than the 64-byte block is first hashed, the key is
zero-padded to the block size, and the nested hash over the
0x36/0x5c-masked keys is taken. -/
def hmacSha256Hex (key msg : List Nat) : String :=
  let k1 := if 64 < key.length then sha256Bytes key else key
  let k0 := k1 ++ List.replicate (64 - k1.length) 0
  bytesToHex (sha256Bytes
    (k0.map (fun b => Nat.xor b 92) ++
      sha256Bytes (k0.map (fun b => Nat.xor b 54) ++ msg)))

/-- Ordering used by Python's `sorted(query_params.items())`: tuples are
compared lexicographically, first component first. -/
def pairLe (a b : String × String) : Bool :=
  decide (a.1 < b.1) || (decide (a.1 = b.1) && decide (a.2 ≤ b.2))

/-- Embedding of `WooXConnector._generate_signature_for_woox`
(woox_connector.py lines 28-41): the canonical string is the sorted
`key=value` pairs joined with `&`, then `|`, then the timestamp;
the signature is HMAC-SHA256 of it under the API secret, hex encoded.
Query parameters are an insertion-ordered association list, as a Python
dict's `.items()` is. -/
def generateSignatureForWoox (timestamp_ms : String)
    (query_params : List (String × String)) (api_secret : String) : String :=
  let sorted_query_string :=
    String.intercalate "&"
      ((query_params.mergeSort pairLe).map (fun kv => kv.1 ++ "=" ++ kv.2))
  hmacSha256Hex (strBytes api_secret)
    (strBytes (sorted_query_string ++ "|" ++ timestamp_ms))

lemma pairLe_trans (a b c : String × String) (hab : pairLe a b = true)
    (hbc : pairLe b c = true) : pairLe a c = true := by
  simp only [pairLe, Bool.or_eq_true, Bool.and_eq_true,
    decide_eq_true_eq] at hab hbc ⊢
  rcases hab with h1 | ⟨h1, h2⟩ <;> rcases hbc with h3 | ⟨h3, h4⟩
  · exact Or.inl (lt_trans h1 h3)
  · exact Or.inl (h3 ▸ h1)
  · exact Or.inl (h1 ▸ h3)
  · exact Or.inr ⟨h1.trans h3, le_trans h2 h4⟩

lemma pairLe_total (a b : String × String) :
    (pairLe a b || pairLe b a) = true := by
  simp only [pairLe, Bool.or_eq_true, Bool.and_eq_true, decide_eq_true_eq]
  rcases lt_trichotomy a.1 b.1 with h | h | h
  · exact Or.inl (Or.inl h)
  · rcases le_total a.2 b.2 with h2 | h2
    · exact Or.inl (Or.inr ⟨h, h2⟩)
    · exact Or.inr (Or.inr ⟨h.symm, h2⟩)
  · exact Or.inr (Or.inl h)

lemma pairLe_antisymm (a b : String × String) (hab : pairLe a b = true)
    (hba : pairLe b a = true) : a = b := by
  simp only [pairLe, Bool.or_eq_true, Bool.and_eq_true,
    decide_eq_true_eq] at hab hba
  rcases hab with h1 | ⟨h1, h2⟩ <;> rcases hba with h3 | ⟨h3, h4⟩
  · exact absurd h3 (lt_asymm h1)
  · exact absurd (h3 ▸ h1) (lt_irrefl a.1)
  · exact absurd (h1 ▸ h3) (lt_irrefl b.1)
  · rcases a with ⟨a1, a2⟩
    rcases b with ⟨b1, b2⟩
    simp only at h1 h2 h4
    simp [h1, le_antisymm h2 h4]

lemma mergeSort_pairLe_eq_of_perm (p₁ p₂ : List (String × String))
    (h : p₁.Perm p₂) : p₁.mergeSort pairLe = p₂.mergeSort pairLe := by
  haveI : IsAntisymm (String × String) (fun a b => pairLe a b = true) :=
    ⟨pairLe_antisymm⟩
  exact @List.eq_of_perm_of_sorted _ (fun a b => pairLe a b = true) _ _ _
    (((p₁.mergeSort_perm pairLe).trans h).trans
      (p₂.mergeSort_perm pairLe).symm)
    (List.sorted_mergeSort pairLe_trans pairLe_total p₁)
    (List.sorted_mergeSort pairLe_trans pairLe_total p₂)

/-- C6: the WooX HMAC signature is deterministic — two calls with
identical query parameters, timestamp and secret yield the identical
signature — and order-independent: any two insertion orders of the same
key=value pairs yield the same signature, because the canonical string is
built from the sorted key=value pairs joined with the timestamp by the
fixed `|` separator. -/
theorem generateSignatureForWoox_deterministic_and_order_independent
    (p₁ p₂ : List (String × String)) (t s : String) (hperm : p₁.Perm p₂) :
    generateSignatureForWoox t p₁ s = generateSignatureForWoox t p₁ s ∧
    generateSignatureForWoox t p₁ s = generateSignatureForWoox t p₂ s := by
  refine ⟨rfl, ?_⟩
  unfold generateSignatureForWoox
  rw [mergeSort_pairLe_eq_of_perm p₁ p₂ hperm]

/-- Witness for the C6 theorem: the two insertion orders of the pairs
(symbol, PERP_BTC_USDT) and (size, 100) sign identically. -/
theorem generateSignatureForWoox_deterministic_and_order_independent_witness :
    [("symbol", "PERP_BTC_USDT"), ("size", "100")].Perm
      [("size", "100"), ("symbol", "PERP_BTC_USDT")] ∧
    (generateSignatureForWoox "1700000000000"
        [("symbol", "PERP_BTC_USDT"), ("size", "100")] "secret" =
      generateSignatureForWoox "1700000000000"
        [("symbol", "PERP_BTC_USDT"), ("size", "100")] "secret" ∧
    generateSignatureForWoox "1700000000000"
        [("symbol", "PERP_BTC_USDT"), ("size", "100")] "secret" =
      generateSignatureForWoox "1700000000000"
        [("size", "100"), ("symbol", "PERP_BTC_USDT")] "secret") := by
  constructor
  · decide
  · exact generateSignatureForWoox_deterministic_and_order_independent
      [("symbol", "PERP_BTC_USDT"), ("size", "100")]
      [("size", "100"), ("symbol", "PERP_BTC_USDT")]
      "1700000000000" "secret" (by decide)

/-- Recent sub-range queried by `WooXConnector.get_user_historical_trades`
(woox_connector.py lines 193-207): when the requested period overlaps the
last 90 days, `/v1/client/trades` is queried from
`max(start_time_ms, three_months_ago_ms)` to `end_time_ms`. -/
def wooxRecentRange (startMs endMs boundaryMs : Nat) : Option (Nat × Nat) :=
  if boundaryMs < endMs then some (max startMs boundaryMs, endMs) else none

/-- Archive sub-range queried by `WooXConnector.get_user_historical_trades`
(woox_connector.py lines 210-232): when the requested period overlaps the
pre-90-day past, `/v1/client/hist_trades` is queried from `start_time_ms`
to `min(end_time_ms, three_months_ago_ms - 1)`, provided the range is
still valid. -/
def wooxArchiveRange (startMs endMs boundaryMs : Nat) : Option (Nat × Nat) :=
  if startMs < boundaryMs then
    if startMs ≤ min endMs (boundaryMs - 1) then
      some (startMs, min endMs (boundaryMs - 1))
    else none
  else none

/-- Python dict-comprehension step for
`{trade['id']: trade for trade in all_trades}`: an existing key keeps its
position and takes the later value; a new key is appended. -/
def dictInsertById (m : List (Nat × WooxTrade)) (t : WooxTrade) :
    List (Nat × WooxTrade) :=
  if m.any (fun kv => kv.1 == t.id) then
    m.map (fun kv => if kv.1 == t.id then (kv.1, t) else kv)
  else m ++ [(t.id, t)]

/-- Deduplication by trade id with Python dict semantics. -/
def dedupById (l : List WooxTrade) : List WooxTrade :=
  (l.foldl dictInsertById []).map (fun kv => kv.2)

/-- Insertion step of a stable sort by `executed_timestamp`; the element
goes in front of the first strictly later element, behind equal ones
already placed. -/
def insertByTs (t : WooxTrade) : List WooxTrade → List WooxTrade
  | [] => [t]
  | h :: rest =>
      if h.executed_timestamp < t.executed_timestamp then
        h :: insertByTs t rest
      else t :: h :: rest

/-- Stable sort by `executed_timestamp`, the semantics of Python's
`sorted(..., key=lambda x: x['executed_timestamp'])`. -/
def sortByTs (l : List WooxTrade) : List WooxTrade :=
  l.foldr insertByTs []

/-- Embedding of `WooXConnector.get_user_historical_trades`
(woox_connector.py lines 175-239) under a given module-global
environment: the requested period is split at the 90-day boundary, and
each overlapping sub-range's branch opens with a `logging.info` call
(lines 196 and 214), so with `logging` unbound the call raises
`NameError` before querying that endpoint; otherwise the recent
endpoint's trades (when queried) are accumulated before the archive
endpoint's trades (when queried), and the accumulation is deduplicated
by trade id and sorted by executed timestamp.
`recentTrades`/`archiveTrades` stand for what
`_fetch_trades_from_endpoint` returned for the respective sub-range. -/
def getUserHistoricalTrades (globals : List String)
    (startMs endMs boundaryMs : Nat)
    (recentTrades archiveTrades : List WooxTrade) :
    Except PyExc (List WooxTrade) :=
  match wooxRecentRange startMs endMs boundaryMs with
  | some _ =>
      if "logging" ∈ globals then
        match wooxArchiveRange startMs endMs boundaryMs with
        | some _ =>
            Except.ok (sortByTs (dedupById (recentTrades ++ archiveTrades)))
        | none => Except.ok (sortByTs (dedupById recentTrades))
      else Except.error (PyExc.nameError "logging")
  | none =>
      match wooxArchiveRange startMs endMs boundaryMs with
      | some _ =>
          if "logging" ∈ globals then
            Except.ok (sortByTs (dedupById archiveTrades))
          else Except.error (PyExc.nameError "logging")
      | none => Except.ok (sortByTs (dedupById []))

lemma dictInsertById_keys_val (m : List (Nat × WooxTrade)) (t : WooxTrade)
    (h : ∀ kv ∈ m, kv.1 = kv.2.id) :
    ∀ kv ∈ dictInsertById m t, kv.1 = kv.2.id := by
  intro kv hkv
  unfold dictInsertById at hkv
  by_cases hmem : m.any (fun kv => kv.1 == t.id) = true
  · rw [if_pos hmem] at hkv
    rcases List.mem_map.mp hkv with ⟨kv₀, hkv₀, heq⟩
    by_cases hid : (kv₀.1 == t.id) = true
    · rw [if_pos hid] at heq
      rw [← heq]
      exact beq_iff_eq.mp hid
    · rw [if_neg hid] at heq
      rw [← heq]
      exact h kv₀ hkv₀
  · rw [if_neg hmem] at hkv
    rcases List.mem_append.mp hkv with hin | hin
    · exact h kv hin
    · rcases List.mem_singleton.mp hin with rfl
      rfl

lemma dictInsertById_keys (m : List (Nat × WooxTrade)) (t : WooxTrade) :
    (dictInsertById m t).map (fun kv => kv.1) =
      (if m.any (fun kv => kv.1 == t.id) then m.map (fun kv => kv.1)
        else m.map (fun kv => kv.1) ++ [t.id]) := by
  unfold dictInsertById
  by_cases hmem : m.any (fun kv => kv.1 == t.id) = true
  · rw [if_pos hmem, if_pos hmem, List.map_map]
    refine List.map_congr_left ?_
    intro kv _
    by_cases hid : (kv.1 == t.id) = true
    · simp only [Function.comp, if_pos hid]
    · simp only [Function.comp, if_neg hid]
  · rw [if_neg hmem, if_neg hmem, List.map_append]
    rfl

lemma dictInsertById_keys_nodup (m : List (Nat × WooxTrade)) (t : WooxTrade)
    (h : (m.map (fun kv => kv.1)).Nodup) :
    ((dictInsertById m t).map (fun kv => kv.1)).Nodup := by
  rw [dictInsertById_keys]
  by_cases hmem : m.any (fun kv => kv.1 == t.id) = true
  · rw [if_pos hmem]
    exact h
  · rw [if_neg hmem]
    rw [List.nodup_append]
    refine ⟨h, List.nodup_singleton _, ?_⟩
    intro a ha hb
    rcases List.mem_singleton.mp hb with rfl
    rcases List.mem_map.mp ha with ⟨kv, hkv, hkey⟩
    refine hmem ?_
    rw [List.any_eq_true]
    exact ⟨kv, hkv, by rw [hkey]; simp⟩

lemma dictInsertById_keys_mem (m : List (Nat × WooxTrade)) (t : WooxTrade)
    (i : Nat) :
    (i ∈ (dictInsertById m t).map (fun kv => kv.1)) ↔
      (i ∈ m.map (fun kv => kv.1) ∨ i = t.id) := by
  rw [dictInsertById_keys]
  by_cases hmem : m.any (fun kv => kv.1 == t.id) = true
  · rw [if_pos hmem]
    constructor
    · exact fun h => Or.inl h
    · rintro (h | rfl)
      · exact h
      · rw [List.any_eq_true] at hmem
        rcases hmem with ⟨kv, hkv, hkey⟩
        exact List.mem_map.mpr ⟨kv, hkv, beq_iff_eq.mp hkey⟩
  · rw [if_neg hmem, List.mem_append, List.mem_singleton]

lemma foldl_dictInsertById_keys_val (l : List WooxTrade)
    (m : List (Nat × WooxTrade)) (h : ∀ kv ∈ m, kv.1 = kv.2.id) :
    ∀ kv ∈ l.foldl dictInsertById m, kv.1 = kv.2.id := by
  induction l generalizing m with
  | nil => exact h
  | cons t rest ih =>
      exact ih (dictInsertById m t) (dictInsertById_keys_val m t h)

lemma foldl_dictInsertById_keys_nodup (l : List WooxTrade)
    (m : List (Nat × WooxTrade)) (h : (m.map (fun kv => kv.1)).Nodup) :
    ((l.foldl dictInsertById m).map (fun kv => kv.1)).Nodup := by
  induction l generalizing m with
  | nil => exact h
  | cons t rest ih =>
      exact ih (dictInsertById m t) (dictInsertById_keys_nodup m t h)

lemma foldl_dictInsertById_keys_mem (l : List WooxTrade)
    (m : List (Nat × WooxTrade)) (i : Nat) :
    (i ∈ (l.foldl dictInsertById m).map (fun kv => kv.1)) ↔
      (i ∈ m.map (fun kv => kv.1) ∨ i ∈ l.map (fun t => t.id)) := by
  induction l generalizing m with
  | nil => simp
  | cons t rest ih =>
      rw [List.foldl_cons, ih (dictInsertById m t),
        dictInsertById_keys_mem m t i]
      simp only [List.map_cons, List.mem_cons]
      tauto

lemma dedupById_map_id (l : List WooxTrade) :
    (dedupById l).map (fun t => t.id) =
      (l.foldl dictInsertById []).map (fun kv => kv.1) := by
  unfold dedupById
  rw [List.map_map]
  refine (List.map_congr_left ?_).symm
  intro kv hkv
  exact foldl_dictInsertById_keys_val l [] (by simp) kv hkv

lemma dedupById_ids_nodup (l : List WooxTrade) :
    ((dedupById l).map (fun t => t.id)).Nodup := by
  rw [dedupById_map_id]
  exact foldl_dictInsertById_keys_nodup l [] (by simp)

lemma dedupById_ids_mem (l : List WooxTrade) (i : Nat) :
    (i ∈ (dedupById l).map (fun t => t.id)) ↔ i ∈ l.map (fun t => t.id) := by
  rw [dedupById_map_id, foldl_dictInsertById_keys_mem l [] i]
  simp

lemma insertByTs_perm (t : WooxTrade) (l : List WooxTrade) :
    (insertByTs t l).Perm (t :: l) := by
  induction l with
  | nil => exact List.Perm.refl _
  | cons h rest ih =>
      unfold insertByTs
      by_cases hlt : h.executed_timestamp < t.executed_timestamp
      · rw [if_pos hlt]
        exact (ih.cons h).trans (List.Perm.swap t h rest)
      · rw [if_neg hlt]

lemma insertByTs_pairwise (t : WooxTrade) (l : List WooxTrade)
    (h : List.Pairwise
      (fun a b => a.executed_timestamp ≤ b.executed_timestamp) l) :
    List.Pairwise (fun a b => a.executed_timestamp ≤ b.executed_timestamp)
      (insertByTs t l) := by
  induction l with
  | nil => exact List.pairwise_singleton _ _
  | cons hd rest ih =>
      rcases List.pairwise_cons.mp h with ⟨hhd, hrest⟩
      unfold insertByTs
      by_cases hlt : hd.executed_timestamp < t.executed_timestamp
      · rw [if_pos hlt]
        refine List.pairwise_cons.mpr ⟨?_, ih hrest⟩
        intro x hx
        rcases List.mem_cons.mp ((insertByTs_perm t rest).mem_iff.mp hx)
          with rfl | hxr
        · exact le_of_lt hlt
        · exact hhd x hxr
      · rw [if_neg hlt]
        refine List.pairwise_cons.mpr ⟨?_, h⟩
        intro x hx
        rcases List.mem_cons.mp hx with rfl | hxr
        · exact Nat.le_of_not_lt hlt
        · exact le_trans (Nat.le_of_not_lt hlt) (hhd x hxr)

lemma sortByTs_perm (l : List WooxTrade) : (sortByTs l).Perm l := by
  induction l with
  | nil => exact List.Perm.refl _
  | cons t rest ih =>
      exact (insertByTs_perm t (sortByTs rest)).trans (ih.cons t)

lemma sortByTs_pairwise (l : List WooxTrade) :
    List.Pairwise (fun a b => a.executed_timestamp ≤ b.executed_timestamp)
      (sortByTs l) := by
  induction l with
  | nil => exact List.Pairwise.nil
  | cons t rest ih => exact insertByTs_pairwise t (sortByTs rest) ih

/-- C7: the claim does not hold as written.  For a requested millisecond
range straddling the fixed 90-day boundary the branch querying the
live-trades endpoint opens with a `logging.info` call, and the module
never imports `logging`, so `get_user_historical_trades` raises
`NameError` before querying either endpoint.  The split itself, and the
merge the rest of the body implements, match the claim: the recent
sub-range is [boundary, end] and the archive sub-range is
[start, boundary-1], disjoint and together covering [start, end] with no
gap; and under an environment that binds `logging` (the evident intent,
and the fix C3 records), whatever the two endpoints return, the merged
result is deduplicated by trade id (pairwise-distinct ids, no id lost)
and sorted by executed timestamp. -/
theorem getUserHistoricalTrades_raises_split_merge_intended
    (startMs endMs boundaryMs : Nat)
    (h1 : startMs < boundaryMs) (h2 : boundaryMs < endMs) :
    (∀ recentTrades archiveTrades : List WooxTrade,
      getUserHistoricalTrades wooxModuleGlobals startMs endMs boundaryMs
          recentTrades archiveTrades =
        Except.error (PyExc.nameError "logging")) ∧
    wooxRecentRange startMs endMs boundaryMs = some (boundaryMs, endMs) ∧
    wooxArchiveRange startMs endMs boundaryMs =
      some (startMs, boundaryMs - 1) ∧
    (∀ tm, ¬ (tm ≤ boundaryMs - 1 ∧ boundaryMs ≤ tm)) ∧
    (∀ tm, startMs ≤ tm → tm ≤ endMs →
      ((startMs ≤ tm ∧ tm ≤ boundaryMs - 1) ∨
        (boundaryMs ≤ tm ∧ tm ≤ endMs))) ∧
    (∀ globals, "logging" ∈ globals →
      ∀ recentTrades archiveTrades : List WooxTrade,
      ∃ merged,
        getUserHistoricalTrades globals startMs endMs boundaryMs
            recentTrades archiveTrades = Except.ok merged ∧
        (merged.map (fun t => t.id)).Nodup ∧
        List.Pairwise
          (fun a b => a.executed_timestamp ≤ b.executed_timestamp) merged ∧
        (∀ i, (i ∈ merged.map (fun t => t.id)) ↔
          i ∈ (recentTrades ++ archiveTrades).map (fun t => t.id))) := by
  have hrec : wooxRecentRange startMs endMs boundaryMs =
      some (boundaryMs, endMs) := by
    unfold wooxRecentRange
    rw [if_pos h2, Nat.max_eq_right (Nat.le_of_lt h1)]
  have harch : wooxArchiveRange startMs endMs boundaryMs =
      some (startMs, boundaryMs - 1) := by
    unfold wooxArchiveRange
    rw [if_pos h1, Nat.min_eq_right (by omega), if_pos (by omega)]
  refine ⟨?_, hrec, harch, by omega, by omega, ?_⟩
  · intro recentTrades archiveTrades
    unfold getUserHistoricalTrades
    rw [hrec]
    dsimp only
    rw [if_neg (by decide)]
  · intro globals hlog recentTrades archiveTrades
    have hall : getUserHistoricalTrades globals startMs endMs boundaryMs
        recentTrades archiveTrades =
        Except.ok (sortByTs (dedupById (recentTrades ++ archiveTrades))) := by
      unfold getUserHistoricalTrades
      rw [hrec]
      dsimp only
      rw [if_pos hlog, harch]
    refine ⟨sortByTs (dedupById (recentTrades ++ archiveTrades)), hall,
      ?_, sortByTs_pairwise _, ?_⟩
    · exact ((sortByTs_perm (dedupById (recentTrades ++ archiveTrades))).map
        (fun t => t.id)).nodup_iff.mpr (dedupById_ids_nodup _)
    · intro i
      rw [((sortByTs_perm (dedupById (recentTrades ++ archiveTrades))).map
        (fun t => t.id)).mem_iff]
      exact dedupById_ids_mem _ i

/-- Witness for the C7 theorem at a concrete straddling range and
concrete endpoint results that contain a duplicate id across the two
sub-ranges: the real module raises, and the repaired module returns the
split-merge result. -/
theorem getUserHistoricalTrades_raises_split_merge_intended_witness :
    ((100 : Nat) < 1000 ∧ (1000 : Nat) < 2000 ∧
      "logging" ∈ "logging" :: wooxModuleGlobals) ∧
    (getUserHistoricalTrades wooxModuleGlobals 100 2000 1000
        [⟨7, 1500, 1, 1⟩, ⟨8, 1200, 1, 1⟩]
        [⟨7, 500, 1, 1⟩, ⟨9, 300, 1, 1⟩] =
      Except.error (PyExc.nameError "logging") ∧
    wooxRecentRange 100 2000 1000 = some (1000, 2000) ∧
    wooxArchiveRange 100 2000 1000 = some (100, 999) ∧
    (∃ merged,
      getUserHistoricalTrades ("logging" :: wooxModuleGlobals) 100 2000 1000
          [⟨7, 1500, 1, 1⟩, ⟨8, 1200, 1, 1⟩]
          [⟨7, 500, 1, 1⟩, ⟨9, 300, 1, 1⟩] = Except.ok merged ∧
      (merged.map (fun t => t.id)).Nodup ∧
      List.Pairwise
        (fun a b => a.executed_timestamp ≤ b.executed_timestamp) merged ∧
      (∀ i, (i ∈ merged.map (fun t => t.id)) ↔
        i ∈ ([(⟨7, 1500, 1, 1⟩ : WooxTrade), ⟨8, 1200, 1, 1⟩] ++
          [(⟨7, 500, 1, 1⟩ : WooxTrade), ⟨9, 300, 1, 1⟩]).map
            (fun t => t.id)))) := by
  have h := getUserHistoricalTrades_raises_split_merge_intended 100 2000 1000
    (by decide) (by decide)
  exact ⟨⟨by decide, by decide, by decide⟩,
    h.1 [⟨7, 1500, 1, 1⟩, ⟨8, 1200, 1, 1⟩] [⟨7, 500, 1, 1⟩, ⟨9, 300, 1, 1⟩],
    h.2.1, h.2.2.1,
    h.2.2.2.2.2 ("logging" :: wooxModuleGlobals) (by decide)
      [⟨7, 1500, 1, 1⟩, ⟨8, 1200, 1, 1⟩] [⟨7, 500, 1, 1⟩, ⟨9, 300, 1, 1⟩]⟩

/-- Calendar day (UTC) of a millisecond timestamp: dates are embedded as
day numbers since the epoch (`datetime.fromtimestamp(ms/1000, tz=utc).date()`). -/
def dayOfMs (ms : Nat) : Nat := ms / 86400000

/-- Per-day accumulator dict of the connectors' `get_historical_klines`
(`{"open": .., "high": .., "low": .., "close": .., "volume": ..}`). -/
structure DayAgg where
  open_price : ℚ
  high : ℚ
  low : ℚ
  close_price : ℚ
  volume : ℚ
deriving DecidableEq, Repr

/-- Per-trade update of one day's accumulator, exactly as in the
connectors' loop body: a first trade of a day seeds open/high/low/close
with its price and a zero volume, and every trade (the first included)
then takes high to the max, low to the min, close to its price, and adds
price times quantity to the volume. -/
def updateDayAgg : Option DayAgg → ℚ → ℚ → DayAgg
  | none, price, qty => ⟨price, price, price, price, price * qty⟩
  | some d, price, qty =>
      ⟨d.open_price, max d.high price, min d.low price, price,
        d.volume + price * qty⟩

/-- Python-dict update of the `daily_aggregated_data` mapping: the first
entry with the day key is updated in place, a missing key is appended. -/
def updateDayMap : List (Nat × DayAgg) → Nat → ℚ → ℚ → List (Nat × DayAgg)
  | [], day, price, qty => [(day, updateDayAgg none price qty)]
  | kv :: rest, day, price, qty =>
      if kv.1 == day then (kv.1, updateDayAgg (some kv.2) price qty) :: rest
      else kv :: updateDayMap rest day price qty

/-- Lookup in the day map. -/
def lookupDay : List (Nat × DayAgg) → Nat → Option DayAgg
  | [], _ => none
  | kv :: rest, d => if kv.1 == d then some kv.2 else lookupDay rest d

/-- Insertion step of a stable sort by a natural-number key. -/
def insertByKey (key : α → Nat) (x : α) : List α → List α
  | [] => [x]
  | h :: rest =>
      if key h < key x then h :: insertByKey key x rest else x :: h :: rest

/-- Stable sort by a natural-number key: the semantics of Python's
`sorted` under a key projection. -/
def sortByKey (key : α → Nat) (l : List α) : List α :=
  l.foldr (insertByKey key) []

/-- Embedding of the daily-aggregation part of
`WooXConnector.get_historical_klines` (woox_connector.py lines 259-307):
trades whose calendar day falls outside the day range of
[start_time_ms, end_time_ms] are skipped; the rest update their day's
accumulator in trade order; the day map is then emitted sorted by day as
`HistoricalKline` records timestamped with their day. -/
def wooxGetHistoricalKlines (startMs endMs : Nat)
    (raw_trades : List WooxTrade) : List HistoricalKline :=
  let m := raw_trades.foldl
    (fun m t =>
      if dayOfMs startMs ≤ dayOfMs t.executed_timestamp ∧
          dayOfMs t.executed_timestamp ≤ dayOfMs endMs then
        updateDayMap m (dayOfMs t.executed_timestamp) t.executed_price
          t.executed_quantity
      else m)
    []
  (sortByKey (fun kv => kv.1) m).map
    (fun kv => ⟨kv.1, kv.2.open_price, kv.2.high, kv.2.low,
      kv.2.close_price, kv.2.volume⟩)

/-- Embedding of the daily-aggregation part of
`ParadexConnector.get_historical_klines` (paradex_connector.py lines
130-181): every returned fill updates its day's accumulator — the
requested `start_time_ms`/`end_time_ms` are never consulted again, so no
range filter is applied; the day map is emitted sorted by day. -/
def paradexGetHistoricalKlines (startMs endMs : Nat)
    (raw_fills : List ParadexFill) : List HistoricalKline :=
  let m := raw_fills.foldl
    (fun m f => updateDayMap m (dayOfMs f.created_at) f.price f.size) []
  (sortByKey (fun kv => kv.1) m).map
    (fun kv => ⟨kv.1, kv.2.open_price, kv.2.high, kv.2.low,
      kv.2.close_price, kv.2.volume⟩)

/-- Embedding of `BaseExchangeConnector.fetch_historical_daily_volume`
(base_connector.py lines 101-123): each raw kline is transformed; a
transformable record is kept only when its date lies in
[start_date, end_date]; the kept records are sorted by date. -/
def fetchHistoricalDailyVolume {α : Type} (transform : α → Option HistoricalVolumeRow)
    (raw_klines : List α) (start_date end_date : Nat) :
    List HistoricalVolumeRow :=
  sortByKey (fun r => r.date)
    ((raw_klines.filterMap transform).filter
      (fun r => decide (start_date ≤ r.date) && decide (r.date ≤ end_date)))

lemma insertByKey_perm {α : Type} (key : α → Nat) (x : α) (l : List α) :
    (insertByKey key x l).Perm (x :: l) := by
  induction l with
  | nil => exact List.Perm.refl _
  | cons h rest ih =>
      unfold insertByKey
      by_cases hlt : key h < key x
      · rw [if_pos hlt]
        exact (ih.cons h).trans (List.Perm.swap x h rest)
      · rw [if_neg hlt]

lemma insertByKey_pairwise {α : Type} (key : α → Nat) (x : α) (l : List α)
    (h : List.Pairwise (fun a b => key a ≤ key b) l) :
    List.Pairwise (fun a b => key a ≤ key b) (insertByKey key x l) := by
  induction l with
  | nil => exact List.pairwise_singleton _ _
  | cons hd rest ih =>
      rcases List.pairwise_cons.mp h with ⟨hhd, hrest⟩
      unfold insertByKey
      by_cases hlt : key hd < key x
      · rw [if_pos hlt]
        refine List.pairwise_cons.mpr ⟨?_, ih hrest⟩
        intro y hy
        rcases List.mem_cons.mp ((insertByKey_perm key x rest).mem_iff.mp hy)
          with rfl | hyr
        · exact le_of_lt hlt
        · exact hhd y hyr
      · rw [if_neg hlt]
        refine List.pairwise_cons.mpr ⟨?_, h⟩
        intro y hy
        rcases List.mem_cons.mp hy with rfl | hyr
        · exact Nat.le_of_not_lt hlt
        · exact le_trans (Nat.le_of_not_lt hlt) (hhd y hyr)

lemma sortByKey_perm {α : Type} (key : α → Nat) (l : List α) :
    (sortByKey key l).Perm l := by
  induction l with
  | nil => exact List.Perm.refl _
  | cons x rest ih =>
      exact (insertByKey_perm key x (sortByKey key rest)).trans (ih.cons x)

lemma sortByKey_pairwise {α : Type} (key : α → Nat) (l : List α) :
    List.Pairwise (fun a b => key a ≤ key b) (sortByKey key l) := by
  induction l with
  | nil => exact List.Pairwise.nil
  | cons x rest ih => exact insertByKey_pairwise key x (sortByKey key rest) ih

lemma lookupDay_updateDayMap (m : List (Nat × DayAgg)) (day : Nat) (p q : ℚ)
    (d : Nat) :
    lookupDay (updateDayMap m day p q) d =
      if d = day then some (updateDayAgg (lookupDay m day) p q)
      else lookupDay m d := by
  induction m with
  | nil =>
      by_cases hd : d = day
      · subst hd
        simp [updateDayMap, lookupDay]
      · have hb : (day == d) = false :=
          beq_eq_false_iff_ne.mpr (fun h => hd h.symm)
        simp [updateDayMap, lookupDay, hb, hd]
  | cons kv rest ih =>
      by_cases hk : (kv.1 == day) = true
      · have hk1 : kv.1 = day := beq_iff_eq.mp hk
        have hstep : updateDayMap (kv :: rest) day p q =
            (kv.1, updateDayAgg (some kv.2) p q) :: rest := by
          unfold updateDayMap
          rw [if_pos hk]
        by_cases hd : d = day
        · subst hd
          rw [hstep]
          simp [lookupDay, hk]
        · have hbd : (kv.1 == d) = false :=
            beq_eq_false_iff_ne.mpr (by rw [hk1]; exact fun h => hd h.symm)
          rw [hstep]
          simp [lookupDay, hbd, hd]
      · have hk1 : kv.1 ≠ day := fun h => hk (beq_iff_eq.mpr h)
        have hstep : updateDayMap (kv :: rest) day p q =
            kv :: updateDayMap rest day p q := by
          conv_lhs => unfold updateDayMap
          rw [if_neg hk]
        rw [hstep]
        by_cases hkd : (kv.1 == d) = true
        · have hd : ¬ d = day := fun h => hk1 ((beq_iff_eq.mp hkd).trans h)
          simp [lookupDay, hkd, hd]
        · simp [lookupDay, hkd, ih, hk1]

lemma updateDayMap_keys_mem (m : List (Nat × DayAgg)) (day : Nat) (p q : ℚ)
    (k : Nat) :
    (k ∈ (updateDayMap m day p q).map (fun kv => kv.1)) ↔
      (k ∈ m.map (fun kv => kv.1) ∨ k = day) := by
  induction m with
  | nil => simp [updateDayMap]
  | cons kv rest ih =>
      by_cases hk : (kv.1 == day) = true
      · have hk1 : kv.1 = day := beq_iff_eq.mp hk
        have hstep : updateDayMap (kv :: rest) day p q =
            (kv.1, updateDayAgg (some kv.2) p q) :: rest := by
          unfold updateDayMap
          rw [if_pos hk]
        rw [hstep]
        simp only [List.map_cons, List.mem_cons, hk1]
        tauto
      · have hstep : updateDayMap (kv :: rest) day p q =
            kv :: updateDayMap rest day p q := by
          conv_lhs => unfold updateDayMap
          rw [if_neg hk]
        rw [hstep]
        simp only [List.map_cons, List.mem_cons, ih]
        tauto

lemma updateDayMap_keys_nodup (m : List (Nat × DayAgg)) (day : Nat) (p q : ℚ)
    (h : (m.map (fun kv => kv.1)).Nodup) :
    ((updateDayMap m day p q).map (fun kv => kv.1)).Nodup := by
  induction m with
  | nil => simp [updateDayMap]
  | cons kv rest ih =>
      have h2 : (kv.1 :: rest.map (fun kv => kv.1)).Nodup := by simpa using h
      rcases List.nodup_cons.mp h2 with ⟨hni, hnd⟩
      by_cases hk : (kv.1 == day) = true
      · have hstep : updateDayMap (kv :: rest) day p q =
            (kv.1, updateDayAgg (some kv.2) p q) :: rest := by
          unfold updateDayMap
          rw [if_pos hk]
        rw [hstep]
        simpa using h
      · have hk1 : kv.1 ≠ day := fun hcontra => hk (beq_iff_eq.mpr hcontra)
        have hstep : updateDayMap (kv :: rest) day p q =
            kv :: updateDayMap rest day p q := by
          conv_lhs => unfold updateDayMap
          rw [if_neg hk]
        rw [hstep]
        simp only [List.map_cons]
        refine List.nodup_cons.mpr ⟨?_, ih hnd⟩
        rw [updateDayMap_keys_mem]
        rintro (hin | rfl)
        · exact hni hin
        · exact hk1 rfl

lemma lookupDay_foldl_updateDayMap (items : List (Nat × ℚ × ℚ))
    (m : List (Nat × DayAgg)) (d : Nat) :
    lookupDay
        (items.foldl (fun acc it => updateDayMap acc it.1 it.2.1 it.2.2) m)
        d =
      ((items.filter (fun it => it.1 == d)).map (fun it => it.2)).foldl
        (fun cur pq => some (updateDayAgg cur pq.1 pq.2)) (lookupDay m d) := by
  induction items generalizing m with
  | nil => simp
  | cons it rest ih =>
      rw [List.foldl_cons, ih (updateDayMap m it.1 it.2.1 it.2.2),
        lookupDay_updateDayMap]
      by_cases hd : it.1 = d
      · have hb : (it.1 == d) = true := beq_iff_eq.mpr hd
        subst hd
        simp [List.filter_cons, hb]
      · have hb : (it.1 == d) = false := beq_eq_false_iff_ne.mpr hd
        rw [if_neg (fun hcontra => hd hcontra.symm)]
        simp [List.filter_cons, hb]

lemma foldl_updateDayMap_keys_mem (items : List (Nat × ℚ × ℚ))
    (m : List (Nat × DayAgg)) (k : Nat) :
    (k ∈ (items.foldl
        (fun acc it => updateDayMap acc it.1 it.2.1 it.2.2) m).map
          (fun kv => kv.1)) ↔
      (k ∈ m.map (fun kv => kv.1) ∨ k ∈ items.map (fun it => it.1)) := by
  induction items generalizing m with
  | nil => simp
  | cons it rest ih =>
      rw [List.foldl_cons, ih (updateDayMap m it.1 it.2.1 it.2.2)]
      rw [updateDayMap_keys_mem]
      simp only [List.map_cons, List.mem_cons]
      tauto

lemma foldl_updateDayMap_keys_nodup (items : List (Nat × ℚ × ℚ))
    (m : List (Nat × DayAgg)) (h : (m.map (fun kv => kv.1)).Nodup) :
    ((items.foldl
        (fun acc it => updateDayMap acc it.1 it.2.1 it.2.2) m).map
          (fun kv => kv.1)).Nodup := by
  induction items generalizing m with
  | nil => exact h
  | cons it rest ih =>
      exact ih (updateDayMap m it.1 it.2.1 it.2.2)
        (updateDayMap_keys_nodup m it.1 it.2.1 it.2.2 h)

/-- Accumulator fold of one day's (price, quantity) stream, seeded with an
existing day record. -/
def dayFoldSome (d0 : DayAgg) (pqs : List (ℚ × ℚ)) : DayAgg :=
  pqs.foldl (fun d pq => updateDayAgg (some d) pq.1 pq.2) d0

lemma dayFold_some_eq (pqs : List (ℚ × ℚ)) (d0 : DayAgg) :
    pqs.foldl (fun cur pq => some (updateDayAgg cur pq.1 pq.2)) (some d0) =
      some (dayFoldSome d0 pqs) := by
  induction pqs generalizing d0 with
  | nil => rfl
  | cons pq rest ih => simp [dayFoldSome, List.foldl_cons, ih]

lemma dayFoldSome_open (pqs : List (ℚ × ℚ)) (d0 : DayAgg) :
    (dayFoldSome d0 pqs).open_price = d0.open_price := by
  induction pqs generalizing d0 with
  | nil => rfl
  | cons pq rest ih =>
      rw [dayFoldSome, List.foldl_cons]
      rw [show (List.foldl (fun d pq => updateDayAgg (some d) pq.1 pq.2)
          (updateDayAgg (some d0) pq.1 pq.2) rest) =
        dayFoldSome (updateDayAgg (some d0) pq.1 pq.2) rest from rfl]
      rw [ih]
      simp [updateDayAgg]

lemma dayFoldSome_close (pqs : List (ℚ × ℚ)) (d0 : DayAgg) :
    (dayFoldSome d0 pqs).close_price =
      ((pqs.map (fun pq => pq.1)).getLast?).getD d0.close_price := by
  induction pqs generalizing d0 with
  | nil => rfl
  | cons pq rest ih =>
      rw [dayFoldSome, List.foldl_cons]
      rw [show (List.foldl (fun d pq => updateDayAgg (some d) pq.1 pq.2)
          (updateDayAgg (some d0) pq.1 pq.2) rest) =
        dayFoldSome (updateDayAgg (some d0) pq.1 pq.2) rest from rfl]
      rw [ih]
      cases rest with
      | nil => simp [updateDayAgg]
      | cons pq2 rest2 =>
          simp only [updateDayAgg, List.map_cons]
          cases hgl : (pq2.1 :: List.map (fun pq => pq.1) rest2).getLast? with
          | none => simp at hgl
          | some v => simp [hgl]

lemma dayFoldSome_volume (pqs : List (ℚ × ℚ)) (d0 : DayAgg) :
    (dayFoldSome d0 pqs).volume =
      d0.volume + (pqs.map (fun pq => pq.1 * pq.2)).sum := by
  induction pqs generalizing d0 with
  | nil => simp [dayFoldSome]
  | cons pq rest ih =>
      rw [dayFoldSome, List.foldl_cons]
      rw [show (List.foldl (fun d pq => updateDayAgg (some d) pq.1 pq.2)
          (updateDayAgg (some d0) pq.1 pq.2) rest) =
        dayFoldSome (updateDayAgg (some d0) pq.1 pq.2) rest from rfl]
      rw [ih]
      simp [updateDayAgg, add_assoc]

lemma dayFoldSome_high (pqs : List (ℚ × ℚ)) (d0 : DayAgg) :
    (dayFoldSome d0 pqs).high = (pqs.map (fun pq => pq.1)).foldl max d0.high := by
  induction pqs generalizing d0 with
  | nil => rfl
  | cons pq rest ih =>
      rw [dayFoldSome, List.foldl_cons]
      rw [show (List.foldl (fun d pq => updateDayAgg (some d) pq.1 pq.2)
          (updateDayAgg (some d0) pq.1 pq.2) rest) =
        dayFoldSome (updateDayAgg (some d0) pq.1 pq.2) rest from rfl]
      rw [ih]
      simp [updateDayAgg]

lemma dayFoldSome_low (pqs : List (ℚ × ℚ)) (d0 : DayAgg) :
    (dayFoldSome d0 pqs).low = (pqs.map (fun pq => pq.1)).foldl min d0.low := by
  induction pqs generalizing d0 with
  | nil => rfl
  | cons pq rest ih =>
      rw [dayFoldSome, List.foldl_cons]
      rw [show (List.foldl (fun d pq => updateDayAgg (some d) pq.1 pq.2)
          (updateDayAgg (some d0) pq.1 pq.2) rest) =
        dayFoldSome (updateDayAgg (some d0) pq.1 pq.2) rest from rfl]
      rw [ih]
      simp [updateDayAgg]

lemma foldl_max_spec (l : List ℚ) (a : ℚ) :
    (l.foldl max a = a ∨ l.foldl max a ∈ l) ∧
      a ≤ l.foldl max a ∧ ∀ x ∈ l, x ≤ l.foldl max a := by
  induction l generalizing a with
  | nil => exact ⟨Or.inl rfl, le_refl a, by simp⟩
  | cons b rest ih =>
      rcases ih (max a b) with ⟨hmem, hle, hall⟩
      refine ⟨?_, ?_, ?_⟩
      · rcases hmem with h | h
        · rcases max_choice a b with hm | hm
          · refine Or.inl ?_
            rw [List.foldl_cons, h, hm]
          · refine Or.inr ?_
            rw [List.foldl_cons, h, hm]
            exact List.mem_cons_self b rest
        · refine Or.inr ?_
          rw [List.foldl_cons]
          exact List.mem_cons_of_mem b h
      · exact le_trans (le_max_left a b) hle
      · intro x hx
        rcases List.mem_cons.mp hx with rfl | hxr
        · exact le_trans (le_max_right a x) hle
        · exact hall x hxr

lemma foldl_min_spec (l : List ℚ) (a : ℚ) :
    (l.foldl min a = a ∨ l.foldl min a ∈ l) ∧
      l.foldl min a ≤ a ∧ ∀ x ∈ l, l.foldl min a ≤ x := by
  induction l generalizing a with
  | nil => exact ⟨Or.inl rfl, le_refl a, by simp⟩
  | cons b rest ih =>
      rcases ih (min a b) with ⟨hmem, hle, hall⟩
      refine ⟨?_, ?_, ?_⟩
      · rcases hmem with h | h
        · rcases min_choice a b with hm | hm
          · refine Or.inl ?_
            rw [List.foldl_cons, h, hm]
          · refine Or.inr ?_
            rw [List.foldl_cons, h, hm]
            exact List.mem_cons_self b rest
        · refine Or.inr ?_
          rw [List.foldl_cons]
          exact List.mem_cons_of_mem b h
      · exact le_trans hle (min_le_left a b)
      · intro x hx
        rcases List.mem_cons.mp hx with rfl | hxr
        · exact le_trans hle (min_le_right a x)
        · exact hall x hxr

lemma filter_key_nil_of_not_mem (m : List (Nat × DayAgg)) (d : Nat)
    (h : d ∉ m.map (fun kv => kv.1)) :
    m.filter (fun kv => kv.1 == d) = [] := by
  induction m with
  | nil => rfl
  | cons kv rest ih =>
      have h1 : kv.1 ≠ d := by
        intro hcontra
        exact h (by simp [hcontra])
      have h2 : d ∉ rest.map (fun kv => kv.1) := by
        intro hcontra
        exact h (by simp [hcontra])
      have hb : (kv.1 == d) = false := beq_eq_false_iff_ne.mpr h1
      simp [List.filter_cons, hb, ih h2]

lemma lookupDay_none_of_not_mem (m : List (Nat × DayAgg)) (d : Nat)
    (h : d ∉ m.map (fun kv => kv.1)) :
    lookupDay m d = none := by
  induction m with
  | nil => rfl
  | cons kv rest ih =>
      have h1 : kv.1 ≠ d := by
        intro hcontra
        exact h (by simp [hcontra])
      have h2 : d ∉ rest.map (fun kv => kv.1) := by
        intro hcontra
        exact h (by simp [hcontra])
      have hb : (kv.1 == d) = false := beq_eq_false_iff_ne.mpr h1
      simp [lookupDay, hb, ih h2]

lemma filter_key_of_lookup (m : List (Nat × DayAgg)) (d : Nat)
    (hnd : (m.map (fun kv => kv.1)).Nodup) :
    m.filter (fun kv => kv.1 == d) =
      (match lookupDay m d with
        | some a => [(d, a)]
        | none => []) := by
  induction m with
  | nil => rfl
  | cons kv rest ih =>
      have h2 : (kv.1 :: rest.map (fun kv => kv.1)).Nodup := by simpa using hnd
      rcases List.nodup_cons.mp h2 with ⟨hni, hnd2⟩
      by_cases hk : (kv.1 == d) = true
      · have hk1 : kv.1 = d := beq_iff_eq.mp hk
        have hrest : rest.filter (fun kv => kv.1 == d) = [] :=
          filter_key_nil_of_not_mem rest d (hk1 ▸ hni)
        simp [List.filter_cons, hk, lookupDay, hrest, hk1]
        exact Prod.ext hk1 rfl
      · simp [List.filter_cons, hk, lookupDay, ih hnd2]

lemma getLast?_getD_cons (a : ℚ) (l : List ℚ) :
    (a :: l).getLast? = some ((l.getLast?).getD a) := by
  induction l generalizing a with
  | nil => rfl
  | cons b l2 ih =>
      rw [List.getLast?_cons_cons, ih b]
      simp [ih b]

/-- Common tail of both connectors' `get_historical_klines`: fold the
per-item (day, price, quantity) stream into the day map, emit sorted by
day as `HistoricalKline` records. -/
def klinesOfItems (items : List (Nat × ℚ × ℚ)) : List HistoricalKline :=
  (sortByKey (fun kv => kv.1)
    (items.foldl (fun acc it => updateDayMap acc it.1 it.2.1 it.2.2)
      [])).map
    (fun kv => ⟨kv.1, kv.2.open_price, kv.2.high, kv.2.low,
      kv.2.close_price, kv.2.volume⟩)

lemma klines_by_day (items : List (Nat × ℚ × ℚ)) (d : Nat) :
    ((klinesOfItems items).map (fun k => k.timestamp)).Nodup ∧
    ((d ∈ (klinesOfItems items).map (fun k => k.timestamp)) ↔
      items.filter (fun it => it.1 == d) ≠ []) ∧
    (∀ x xs, items.filter (fun it => it.1 == d) = x :: xs →
      (klinesOfItems items).filter (fun k => k.timestamp == d) =
        [⟨d, x.2.1,
          (xs.map (fun it => it.2.1)).foldl max x.2.1,
          (xs.map (fun it => it.2.1)).foldl min x.2.1,
          (((x :: xs).map (fun it => it.2.1)).getLast?).getD x.2.1,
          ((x :: xs).map (fun it => it.2.1 * it.2.2)).sum⟩]) := by
  have hkeysnd : ((items.foldl
      (fun acc it => updateDayMap acc it.1 it.2.1 it.2.2) []).map
        (fun kv => kv.1)).Nodup :=
    foldl_updateDayMap_keys_nodup items [] (by simp)
  have hperm := sortByKey_perm (fun kv : Nat × DayAgg => kv.1)
    (items.foldl (fun acc it => updateDayMap acc it.1 it.2.1 it.2.2) [])
  have hsortnd : ((sortByKey (fun kv : Nat × DayAgg => kv.1)
      (items.foldl (fun acc it => updateDayMap acc it.1 it.2.1 it.2.2)
        [])).map (fun kv => kv.1)).Nodup :=
    ((hperm.map (fun kv => kv.1)).nodup_iff).mpr hkeysnd
  have htsmap : ((klinesOfItems items).map (fun k => k.timestamp)) =
      ((sortByKey (fun kv : Nat × DayAgg => kv.1)
        (items.foldl (fun acc it => updateDayMap acc it.1 it.2.1 it.2.2)
          [])).map (fun kv => kv.1)) := by
    unfold klinesOfItems
    rw [List.map_map]
    rfl
  refine ⟨?_, ?_, ?_⟩
  · rw [htsmap]
    exact hsortnd
  · rw [htsmap, (hperm.map (fun kv => kv.1)).mem_iff,
      foldl_updateDayMap_keys_mem items [] d]
    simp only [List.map_nil, List.not_mem_nil, false_or]
    constructor
    · intro hmem hnil
      rcases List.mem_map.mp hmem with ⟨it, hit, hd⟩
      have hin : it ∈ items.filter (fun it => it.1 == d) :=
        List.mem_filter.mpr ⟨hit, beq_iff_eq.mpr hd⟩
      rw [hnil] at hin
      exact List.not_mem_nil it hin
    · intro hne
      rcases List.exists_mem_of_ne_nil _ hne with ⟨it, hit⟩
      rcases List.mem_filter.mp hit with ⟨hmem, hd⟩
      exact List.mem_map.mpr ⟨it, hmem, beq_iff_eq.mp hd⟩
  · intro x xs hfil
    have hlook : lookupDay
        (items.foldl (fun acc it => updateDayMap acc it.1 it.2.1 it.2.2) [])
        d =
        some (dayFoldSome ⟨x.2.1, x.2.1, x.2.1, x.2.1, x.2.1 * x.2.2⟩
          (xs.map (fun it => it.2))) := by
      rw [lookupDay_foldl_updateDayMap items [] d, hfil]
      simp only [lookupDay, List.map_cons, List.foldl_cons]
      rw [show updateDayAgg none x.2.1 x.2.2 =
        (⟨x.2.1, x.2.1, x.2.1, x.2.1, x.2.1 * x.2.2⟩ : DayAgg) from rfl]
      exact dayFold_some_eq (xs.map (fun it => it.2)) _
    have hfk := filter_key_of_lookup
      (sortByKey (fun kv : Nat × DayAgg => kv.1)
        (items.foldl (fun acc it => updateDayMap acc it.1 it.2.1 it.2.2) []))
      d hsortnd
    have hfil1 := filter_key_of_lookup
      (items.foldl (fun acc it => updateDayMap acc it.1 it.2.1 it.2.2) [])
      d hkeysnd
    have hpf := hperm.filter (fun kv : Nat × DayAgg => kv.1 == d)
    rw [hfk, hfil1, hlook] at hpf
    have hlook2 : lookupDay
        (sortByKey (fun kv : Nat × DayAgg => kv.1)
          (items.foldl (fun acc it => updateDayMap acc it.1 it.2.1 it.2.2)
            [])) d =
        some (dayFoldSome ⟨x.2.1, x.2.1, x.2.1, x.2.1, x.2.1 * x.2.2⟩
          (xs.map (fun it => it.2))) := by
      cases hl2 : lookupDay
          (sortByKey (fun kv : Nat × DayAgg => kv.1)
            (items.foldl
              (fun acc it => updateDayMap acc it.1 it.2.1 it.2.2) []))
          d with
      | none =>
          rw [hl2] at hpf
          simp only at hpf
          exact absurd (List.Perm.nil_eq hpf).symm (by simp)
      | some a =>
          rw [hl2] at hpf
          simp only at hpf
          have h1 := List.perm_singleton.mp hpf
          simp only [List.cons.injEq, Prod.mk.injEq] at h1
          rw [h1.1.2]
    unfold klinesOfItems
    rw [List.filter_map]
    have hcomp : ((fun k : HistoricalKline => k.timestamp == d) ∘
        (fun kv : Nat × DayAgg => (⟨kv.1, kv.2.open_price, kv.2.high,
          kv.2.low, kv.2.close_price, kv.2.volume⟩ : HistoricalKline))) =
        (fun kv : Nat × DayAgg => kv.1 == d) := rfl
    rw [hcomp, hfk, hlook2]
    simp only [List.map_cons, List.map_nil, HistoricalKline.mk.injEq]
    rw [dayFoldSome_open, dayFoldSome_high, dayFoldSome_low,
      dayFoldSome_close, dayFoldSome_volume]
    simp only [List.map_map]
    rw [getLast?_getD_cons]
    simp only [List.sum_cons, Function.comp, Option.getD_some,
      List.cons.injEq, HistoricalKline.mk.injEq, and_true, true_and]
    refine ⟨rfl, rfl, ?_, rfl⟩
    cases hgl : xs.getLast? with
    | none => rfl
    | some y => rfl

/-- Range test of the WooX kline filter, as a boolean. -/
def wooxInRangeB (startMs endMs : Nat) (t : WooxTrade) : Bool :=
  decide (dayOfMs startMs ≤ dayOfMs t.executed_timestamp) &&
    decide (dayOfMs t.executed_timestamp ≤ dayOfMs endMs)

/-- Day, price and quantity read off one WooX trade. -/
def wooxToItem (t : WooxTrade) : Nat × ℚ × ℚ :=
  (dayOfMs t.executed_timestamp, t.executed_price, t.executed_quantity)

/-- The in-range trades of calendar day `d`. -/
def wooxDayTrades (startMs endMs d : Nat) (trades : List WooxTrade) :
    List WooxTrade :=
  trades.filter
    (fun t => wooxInRangeB startMs endMs t &&
      (dayOfMs t.executed_timestamp == d))

/-- Day, price and size read off one Paradex fill. -/
def paradexToItem (f : ParadexFill) : Nat × ℚ × ℚ :=
  (dayOfMs f.created_at, f.price, f.size)

/-- The fills of calendar day `d`. -/
def paradexDayFills (d : Nat) (fills : List ParadexFill) : List ParadexFill :=
  fills.filter (fun f => dayOfMs f.created_at == d)

lemma woox_fold_eq (startMs endMs : Nat) (trades : List WooxTrade)
    (m : List (Nat × DayAgg)) :
    trades.foldl
      (fun m t =>
        if dayOfMs startMs ≤ dayOfMs t.executed_timestamp ∧
            dayOfMs t.executed_timestamp ≤ dayOfMs endMs then
          updateDayMap m (dayOfMs t.executed_timestamp) t.executed_price
            t.executed_quantity
        else m)
      m =
    ((trades.filter (wooxInRangeB startMs endMs)).map wooxToItem).foldl
      (fun acc it => updateDayMap acc it.1 it.2.1 it.2.2) m := by
  induction trades generalizing m with
  | nil => rfl
  | cons t rest ih =>
      by_cases h : dayOfMs startMs ≤ dayOfMs t.executed_timestamp ∧
          dayOfMs t.executed_timestamp ≤ dayOfMs endMs
      · have hb : wooxInRangeB startMs endMs t = true := by
          simp [wooxInRangeB, h.1, h.2]
        have hfil : (t :: rest).filter (wooxInRangeB startMs endMs) =
            t :: rest.filter (wooxInRangeB startMs endMs) := by
          simp [List.filter_cons, hb]
        rw [List.foldl_cons, if_pos h, hfil, List.map_cons, List.foldl_cons]
        exact ih (updateDayMap m (dayOfMs t.executed_timestamp)
          t.executed_price t.executed_quantity)
      · have hb : wooxInRangeB startMs endMs t = false := by
          cases harg : wooxInRangeB startMs endMs t with
          | false => rfl
          | true =>
              exact absurd (by simpa [wooxInRangeB] using harg) h
        have hfil : (t :: rest).filter (wooxInRangeB startMs endMs) =
            rest.filter (wooxInRangeB startMs endMs) := by
          simp [List.filter_cons, hb]
        rw [List.foldl_cons, if_neg h, hfil]
        exact ih m

lemma wooxGetHistoricalKlines_eq (startMs endMs : Nat)
    (trades : List WooxTrade) :
    wooxGetHistoricalKlines startMs endMs trades =
      klinesOfItems
        ((trades.filter (wooxInRangeB startMs endMs)).map wooxToItem) := by
  unfold wooxGetHistoricalKlines klinesOfItems
  rw [woox_fold_eq]

lemma paradexGetHistoricalKlines_eq (startMs endMs : Nat)
    (fills : List ParadexFill) :
    paradexGetHistoricalKlines startMs endMs fills =
      klinesOfItems (fills.map paradexToItem) := by
  unfold paradexGetHistoricalKlines klinesOfItems
  rw [List.foldl_map]
  rfl

lemma woox_items_day_filter (startMs endMs d : Nat)
    (trades : List WooxTrade) :
    ((trades.filter (wooxInRangeB startMs endMs)).map wooxToItem).filter
      (fun it => it.1 == d) =
      (wooxDayTrades startMs endMs d trades).map wooxToItem := by
  unfold wooxDayTrades
  induction trades with
  | nil => rfl
  | cons t rest ih =>
      by_cases h1 : wooxInRangeB startMs endMs t = true
      · by_cases h2 : (dayOfMs t.executed_timestamp == d) = true
        · simp [List.filter_cons, wooxToItem, h1, h2, ih]
        · have h2f : (dayOfMs t.executed_timestamp == d) = false := by
            simpa using h2
          simp [List.filter_cons, wooxToItem, h1, h2f, ih]
      · have h1f : wooxInRangeB startMs endMs t = false := by simpa using h1
        simp [List.filter_cons, h1f, ih]

lemma paradex_items_day_filter (d : Nat) (fills : List ParadexFill) :
    ((fills.map paradexToItem).filter (fun it => it.1 == d)) =
      (paradexDayFills d fills).map paradexToItem := by
  unfold paradexDayFills
  induction fills with
  | nil => rfl
  | cons f rest ih =>
      by_cases h : (dayOfMs f.created_at == d) = true
      · simp [List.filter_cons, paradexToItem, h, ih]
      · have hf : (dayOfMs f.created_at == d) = false := by simpa using h
        simp [List.filter_cons, paradexToItem, hf, ih]

lemma woox_klines_day_record (startMs endMs d : Nat)
    (trades : List WooxTrade) (x : WooxTrade) (xs : List WooxTrade)
    (hfil : wooxDayTrades startMs endMs d trades = x :: xs) :
    (wooxGetHistoricalKlines startMs endMs trades).filter
        (fun kl => kl.timestamp == d) =
      [⟨d, x.executed_price,
        (xs.map (fun t => t.executed_price)).foldl max x.executed_price,
        (xs.map (fun t => t.executed_price)).foldl min x.executed_price,
        (((x :: xs).map (fun t => t.executed_price)).getLast?).getD
          x.executed_price,
        ((x :: xs).map
          (fun t => t.executed_price * t.executed_quantity)).sum⟩] := by
  have hitems := woox_items_day_filter startMs endMs d trades
  rw [hfil, List.map_cons] at hitems
  have h3 := (klines_by_day
    ((trades.filter (wooxInRangeB startMs endMs)).map wooxToItem) d).2.2
    (wooxToItem x) (xs.map wooxToItem) hitems
  rw [wooxGetHistoricalKlines_eq, h3]
  simp only [List.map_map, List.map_cons]
  rw [getLast?_getD_cons, getLast?_getD_cons]
  rfl

lemma paradex_klines_day_record (startMs endMs d : Nat)
    (fills : List ParadexFill) (x : ParadexFill) (xs : List ParadexFill)
    (hfil : paradexDayFills d fills = x :: xs) :
    (paradexGetHistoricalKlines startMs endMs fills).filter
        (fun kl => kl.timestamp == d) =
      [⟨d, x.price,
        (xs.map (fun f => f.price)).foldl max x.price,
        (xs.map (fun f => f.price)).foldl min x.price,
        (((x :: xs).map (fun f => f.price)).getLast?).getD x.price,
        ((x :: xs).map (fun f => f.price * f.size)).sum⟩] := by
  have hitems := paradex_items_day_filter d fills
  rw [hfil, List.map_cons] at hitems
  have h3 := (klines_by_day (fills.map paradexToItem) d).2.2
    (paradexToItem x) (xs.map paradexToItem) hitems
  rw [paradexGetHistoricalKlines_eq, h3]
  simp only [List.map_map, List.map_cons]
  rw [getLast?_getD_cons, getLast?_getD_cons]
  rfl

lemma woox_klines_one_per_day (startMs endMs : Nat)
    (trades : List WooxTrade) :
    ((wooxGetHistoricalKlines startMs endMs trades).map
      (fun k => k.timestamp)).Nodup ∧
    ∀ d, (d ∈ (wooxGetHistoricalKlines startMs endMs trades).map
        (fun k => k.timestamp)) ↔
      wooxDayTrades startMs endMs d trades ≠ [] := by
  rw [wooxGetHistoricalKlines_eq]
  refine ⟨(klines_by_day _ 0).1, ?_⟩
  intro d
  rw [(klines_by_day _ d).2.1, woox_items_day_filter]
  simp

lemma paradex_klines_one_per_day (startMs endMs : Nat)
    (fills : List ParadexFill) :
    ((paradexGetHistoricalKlines startMs endMs fills).map
      (fun k => k.timestamp)).Nodup ∧
    ∀ d, (d ∈ (paradexGetHistoricalKlines startMs endMs fills).map
        (fun k => k.timestamp)) ↔
      paradexDayFills d fills ≠ [] := by
  rw [paradexGetHistoricalKlines_eq]
  refine ⟨(klines_by_day _ 0).1, ?_⟩
  intro d
  rw [(klines_by_day _ d).2.1, paradex_items_day_filter]
  simp

/-- C8: in both connectors' `get_historical_klines` the daily aggregation
produces exactly one record per calendar day that has trades (day keys
are pairwise distinct, and a day's record exists exactly when the day has
relevant trades); that record's open is the price of the day's first
trade, its close the price of the day's last trade, its high and low the
extrema of the day's trade prices, and its volume the sum of
price × size over the day's trades.  In particular, the spec's example —
fills (60000, 0.01) and (61000, 0.02) on one day — yields the single
record open 60000, close 61000, high 61000, low 60000, volume 1820. -/
theorem get_historical_klines_daily_ohlcv :
    (∀ startMs endMs trades,
      ((wooxGetHistoricalKlines startMs endMs trades).map
        (fun k => k.timestamp)).Nodup ∧
      ∀ d, (d ∈ (wooxGetHistoricalKlines startMs endMs trades).map
          (fun k => k.timestamp)) ↔
        wooxDayTrades startMs endMs d trades ≠ []) ∧
    (∀ startMs endMs d trades x xs,
      wooxDayTrades startMs endMs d trades = x :: xs →
      ∃ k, (wooxGetHistoricalKlines startMs endMs trades).filter
          (fun kl => kl.timestamp == d) = [k] ∧
        k.timestamp = d ∧
        k.open_price = x.executed_price ∧
        some k.close_price =
          ((x :: xs).map (fun t => t.executed_price)).getLast? ∧
        k.high ∈ (x :: xs).map (fun t => t.executed_price) ∧
        (∀ p ∈ (x :: xs).map (fun t => t.executed_price), p ≤ k.high) ∧
        k.low ∈ (x :: xs).map (fun t => t.executed_price) ∧
        (∀ p ∈ (x :: xs).map (fun t => t.executed_price), k.low ≤ p) ∧
        k.volume = ((x :: xs).map
          (fun t => t.executed_price * t.executed_quantity)).sum) ∧
    (∀ startMs endMs fills,
      ((paradexGetHistoricalKlines startMs endMs fills).map
        (fun k => k.timestamp)).Nodup ∧
      ∀ d, (d ∈ (paradexGetHistoricalKlines startMs endMs fills).map
          (fun k => k.timestamp)) ↔ paradexDayFills d fills ≠ []) ∧
    (∀ startMs endMs d fills x xs,
      paradexDayFills d fills = x :: xs →
      ∃ k, (paradexGetHistoricalKlines startMs endMs fills).filter
          (fun kl => kl.timestamp == d) = [k] ∧
        k.timestamp = d ∧
        k.open_price = x.price ∧
        some k.close_price = ((x :: xs).map (fun f => f.price)).getLast? ∧
        k.high ∈ (x :: xs).map (fun f => f.price) ∧
        (∀ p ∈ (x :: xs).map (fun f => f.price), p ≤ k.high) ∧
        k.low ∈ (x :: xs).map (fun f => f.price) ∧
        (∀ p ∈ (x :: xs).map (fun f => f.price), k.low ≤ p) ∧
        k.volume = ((x :: xs).map (fun f => f.price * f.size)).sum) ∧
    wooxGetHistoricalKlines 0 86399999
        [⟨1, 1000, 60000, 1/100⟩, ⟨2, 2000, 61000, 1/50⟩] =
      [⟨0, 60000, 61000, 60000, 61000, 1820⟩] := by
  refine ⟨woox_klines_one_per_day, ?_, paradex_klines_one_per_day, ?_, ?_⟩
  · intro startMs endMs d trades x xs hfil
    refine ⟨_, woox_klines_day_record startMs endMs d trades x xs hfil,
      rfl, rfl, ?_, ?_, ?_, ?_, ?_, rfl⟩
    · rw [List.map_cons, getLast?_getD_cons]
      rfl
    · rcases foldl_max_spec (xs.map (fun t => t.executed_price))
        x.executed_price with ⟨hmem, _, _⟩
      rw [List.map_cons]
      rcases hmem with h | h
      · rw [h]
        exact List.mem_cons_self _ _
      · exact List.mem_cons_of_mem _ h
    · rcases foldl_max_spec (xs.map (fun t => t.executed_price))
        x.executed_price with ⟨_, hseed, hall⟩
      intro p hp
      rw [List.map_cons] at hp
      rcases List.mem_cons.mp hp with rfl | h
      · exact hseed
      · exact hall p h
    · rcases foldl_min_spec (xs.map (fun t => t.executed_price))
        x.executed_price with ⟨hmem, _, _⟩
      rw [List.map_cons]
      rcases hmem with h | h
      · rw [h]
        exact List.mem_cons_self _ _
      · exact List.mem_cons_of_mem _ h
    · rcases foldl_min_spec (xs.map (fun t => t.executed_price))
        x.executed_price with ⟨_, hseed, hall⟩
      intro p hp
      rw [List.map_cons] at hp
      rcases List.mem_cons.mp hp with rfl | h
      · exact hseed
      · exact hall p h
  · intro startMs endMs d fills x xs hfil
    refine ⟨_, paradex_klines_day_record startMs endMs d fills x xs hfil,
      rfl, rfl, ?_, ?_, ?_, ?_, ?_, rfl⟩
    · rw [List.map_cons, getLast?_getD_cons]
      rfl
    · rcases foldl_max_spec (xs.map (fun f => f.price)) x.price
        with ⟨hmem, _, _⟩
      rw [List.map_cons]
      rcases hmem with h | h
      · rw [h]
        exact List.mem_cons_self _ _
      · exact List.mem_cons_of_mem _ h
    · rcases foldl_max_spec (xs.map (fun f => f.price)) x.price
        with ⟨_, hseed, hall⟩
      intro p hp
      rw [List.map_cons] at hp
      rcases List.mem_cons.mp hp with rfl | h
      · exact hseed
      · exact hall p h
    · rcases foldl_min_spec (xs.map (fun f => f.price)) x.price
        with ⟨hmem, _, _⟩
      rw [List.map_cons]
      rcases hmem with h | h
      · rw [h]
        exact List.mem_cons_self _ _
      · exact List.mem_cons_of_mem _ h
    · rcases foldl_min_spec (xs.map (fun f => f.price)) x.price
        with ⟨_, hseed, hall⟩
      intro p hp
      rw [List.map_cons] at hp
      rcases List.mem_cons.mp hp with rfl | h
      · exact hseed
      · exact hall p h
  · norm_num [wooxGetHistoricalKlines, dayOfMs, updateDayMap, updateDayAgg,
      sortByKey, insertByKey, max_def, min_def]

/-- Witness for the C8 theorem at the spec's example day: the two fills
(60000, 0.01) and (61000, 0.02) form day 0's trade list, and the day's
single record satisfies the open/close/high/low/volume characterisation. -/
theorem get_historical_klines_daily_ohlcv_witness :
    wooxDayTrades 0 86399999 0
        [⟨1, 1000, 60000, 1/100⟩, ⟨2, 2000, 61000, 1/50⟩] =
      ⟨1, 1000, 60000, 1/100⟩ :: [⟨2, 2000, 61000, 1/50⟩] ∧
    (∃ k, (wooxGetHistoricalKlines 0 86399999
        [⟨1, 1000, 60000, 1/100⟩, ⟨2, 2000, 61000, 1/50⟩]).filter
          (fun kl => kl.timestamp == 0) = [k] ∧
      k.timestamp = 0 ∧
      k.open_price = (⟨1, 1000, 60000, 1/100⟩ : WooxTrade).executed_price ∧
      some k.close_price =
        (([⟨1, 1000, 60000, 1/100⟩, ⟨2, 2000, 61000, 1/50⟩] :
          List WooxTrade).map (fun t => t.executed_price)).getLast? ∧
      k.high ∈ ([⟨1, 1000, 60000, 1/100⟩, ⟨2, 2000, 61000, 1/50⟩] :
        List WooxTrade).map (fun t => t.executed_price) ∧
      (∀ p ∈ ([⟨1, 1000, 60000, 1/100⟩, ⟨2, 2000, 61000, 1/50⟩] :
        List WooxTrade).map (fun t => t.executed_price), p ≤ k.high) ∧
      k.low ∈ ([⟨1, 1000, 60000, 1/100⟩, ⟨2, 2000, 61000, 1/50⟩] :
        List WooxTrade).map (fun t => t.executed_price) ∧
      (∀ p ∈ ([⟨1, 1000, 60000, 1/100⟩, ⟨2, 2000, 61000, 1/50⟩] :
        List WooxTrade).map (fun t => t.executed_price), k.low ≤ p) ∧
      k.volume = (([⟨1, 1000, 60000, 1/100⟩, ⟨2, 2000, 61000, 1/50⟩] :
        List WooxTrade).map
          (fun t => t.executed_price * t.executed_quantity)).sum) := by
  refine ⟨rfl, ?_⟩
  exact get_historical_klines_daily_ohlcv.2.1 0 86399999 0
    [⟨1, 1000, 60000, 1/100⟩, ⟨2, 2000, 61000, 1/50⟩]
    ⟨1, 1000, 60000, 1/100⟩ [⟨2, 2000, 61000, 1/50⟩] rfl

/-- C9, counterexample: Paradex's `get_historical_klines`, asked for the
range [0 ms, 86399999 ms] (calendar day 0 only), but given an upstream
fill dated day 10, emits a daily record timestamped day 10 — outside the
requested range, because the Paradex aggregation never filters by the
requested range. -/
theorem paradex_klines_escape_requested_range :
    (paradexGetHistoricalKlines 0 86399999 [⟨864000000, 1, 1⟩]).map
        (fun k => k.timestamp) = [10] ∧
    ¬ ((10 : Nat) ≤ dayOfMs 86399999) := by
  exact ⟨rfl, by decide⟩

/-- C9, amended: WooX's `get_historical_klines` and the base connector's
`fetch_historical_daily_volume` discard raw items whose date lies outside
the requested range — every record they return is dated within it — but
Paradex's `get_historical_klines` applies no such filter (see the
counterexample). -/
theorem historical_range_filter_woox_and_base
    (startMs endMs : Nat) (trades : List WooxTrade)
    {α : Type} (transform : α → Option HistoricalVolumeRow)
    (raw_klines : List α) (start_date end_date : Nat) :
    (∀ k ∈ wooxGetHistoricalKlines startMs endMs trades,
      dayOfMs startMs ≤ k.timestamp ∧ k.timestamp ≤ dayOfMs endMs) ∧
    (∀ r ∈ fetchHistoricalDailyVolume transform raw_klines start_date
        end_date,
      start_date ≤ r.date ∧ r.date ≤ end_date) := by
  constructor
  · intro k hk
    have hmem : k.timestamp ∈ (wooxGetHistoricalKlines startMs endMs
        trades).map (fun k => k.timestamp) :=
      List.mem_map.mpr ⟨k, hk, rfl⟩
    have hne := ((woox_klines_one_per_day startMs endMs trades).2
      k.timestamp).mp hmem
    rcases List.exists_mem_of_ne_nil _ hne with ⟨t, ht⟩
    rcases List.mem_filter.mp ht with ⟨_, hpred⟩
    rw [Bool.and_eq_true] at hpred
    rcases hpred with ⟨hin, hd⟩
    have hdd : dayOfMs t.executed_timestamp = k.timestamp :=
      beq_iff_eq.mp hd
    have hin2 : dayOfMs startMs ≤ dayOfMs t.executed_timestamp ∧
        dayOfMs t.executed_timestamp ≤ dayOfMs endMs := by
      simpa [wooxInRangeB] using hin
    rw [← hdd]
    exact hin2
  · intro r hr
    unfold fetchHistoricalDailyVolume at hr
    have hr2 := (sortByKey_perm (fun r : HistoricalVolumeRow => r.date)
      _).mem_iff.mp hr
    rcases List.mem_filter.mp hr2 with ⟨_, hpred⟩
    simpa using hpred

/-- Witness for the amended C9 theorem: a concrete in-range WooX trade and
a concrete in-range transformed record, both retained and both within the
requested bounds. -/
theorem historical_range_filter_woox_and_base_witness :
    ((⟨0, 5, 5, 5, 5, 5 * 2⟩ : HistoricalKline) ∈
      wooxGetHistoricalKlines 0 86399999 [⟨1, 1000, 5, 2⟩] ∧
    (dayOfMs 0 ≤ (0 : Nat) ∧ (0 : Nat) ≤ dayOfMs 86399999)) ∧
    ((⟨"woox", "PERP_BTC_USDT", 5, 1⟩ : HistoricalVolumeRow) ∈
      fetchHistoricalDailyVolume (fun r => some r)
        [(⟨"woox", "PERP_BTC_USDT", 5, 1⟩ : HistoricalVolumeRow)] 0 10 ∧
    ((0 : Nat) ≤ 5 ∧ (5 : Nat) ≤ 10)) := by
  have h := historical_range_filter_woox_and_base 0 86399999
    [⟨1, 1000, 5, 2⟩] (fun r => some r)
    [(⟨"woox", "PERP_BTC_USDT", 5, 1⟩ : HistoricalVolumeRow)] 0 10
  have hm1 : (⟨0, 5, 5, 5, 5, 5 * 2⟩ : HistoricalKline) ∈
      wooxGetHistoricalKlines 0 86399999 [⟨1, 1000, 5, 2⟩] := by
    rw [show wooxGetHistoricalKlines 0 86399999 [⟨1, 1000, 5, 2⟩] =
      [⟨0, 5, 5, 5, 5, 5 * 2⟩] from rfl]
    exact List.mem_singleton.mpr rfl
  have hm2 : (⟨"woox", "PERP_BTC_USDT", 5, 1⟩ : HistoricalVolumeRow) ∈
      fetchHistoricalDailyVolume (fun r => some r)
        [(⟨"woox", "PERP_BTC_USDT", 5, 1⟩ : HistoricalVolumeRow)] 0 10 := by
    rw [show fetchHistoricalDailyVolume (fun r => some r)
      [(⟨"woox", "PERP_BTC_USDT", 5, 1⟩ : HistoricalVolumeRow)] 0 10 =
      [⟨"woox", "PERP_BTC_USDT", 5, 1⟩] from rfl]
    exact List.mem_singleton.mpr rfl
  exact ⟨⟨hm1, h.1 _ hm1⟩, ⟨hm2, h.2 _ hm2⟩⟩
